import Mathlib

/-!
# paperwork-service: the document composition engine

A shallow embedding of `internal/services/pdf_service.go` and of the model types of
`internal/models`.  Go strings are byte sequences, so they are lists of bytes here;
the canvas (`gofpdf`) is abstracted to the list of things the composer asks it to draw.
Definitions come first, theorems afterwards.
-/

namespace Paperwork

/-! ## Strings -/

/-- A Go `string`: an immutable sequence of bytes (each entry is one byte, `0 .. 255`).
Text is UTF-8 by convention only; a Go string may hold any bytes. -/
abbrev GoString := List Nat

/-- The bytes of an ASCII literal. -/
def ascii (s : String) : GoString := s.toList.map Char.toNat

/-- Worker of `replaceAll`: `skip` counts the bytes of the current match of `old` that are
still to be dropped. -/
def replaceAllAux (old new : GoString) : Nat → GoString → GoString
  | _, [] => []
  | skip + 1, _ :: rest => replaceAllAux old new skip rest
  | 0, c :: rest =>
    if old.isPrefixOf (c :: rest) then new ++ replaceAllAux old new (old.length - 1) rest
    else c :: replaceAllAux old new 0 rest

/-- Go's `strings.ReplaceAll(s, old, new)` for a non-empty `old` (every call in the program
passes a non-empty `old`): scanning from the left, each non-overlapping occurrence of `old`
is replaced by `new`, all other bytes are copied. -/
def replaceAll (s old new : GoString) : GoString := replaceAllAux old new 0 s

/-- UTF-8 encoding of U+201C, left double quotation mark. -/
def leftDoubleQuote : GoString := [0xE2, 0x80, 0x9C]
/-- UTF-8 encoding of U+201D, right double quotation mark. -/
def rightDoubleQuote : GoString := [0xE2, 0x80, 0x9D]
/-- UTF-8 encoding of U+2018, left single quotation mark. -/
def leftSingleQuote : GoString := [0xE2, 0x80, 0x98]
/-- UTF-8 encoding of U+2019, right single quotation mark. -/
def rightSingleQuote : GoString := [0xE2, 0x80, 0x99]
/-- UTF-8 encoding of U+2013, en dash. -/
def enDash : GoString := [0xE2, 0x80, 0x93]
/-- UTF-8 encoding of U+2014, em dash. -/
def emDash : GoString := [0xE2, 0x80, 0x94]
/-- UTF-8 encoding of U+2026, horizontal ellipsis. -/
def ellipsis : GoString := [0xE2, 0x80, 0xA6]
/-- The one-byte string holding NUL. -/
def nul : GoString := [0x00]

/-- The function `cleanString` of `pdf_service.go`: eight `strings.ReplaceAll` passes, in the
order of the source. -/
def cleanString (s : GoString) : GoString :=
  let s := replaceAll s leftDoubleQuote (ascii "\"")
  let s := replaceAll s rightDoubleQuote (ascii "\"")
  let s := replaceAll s leftSingleQuote (ascii "'")
  let s := replaceAll s rightSingleQuote (ascii "'")
  let s := replaceAll s enDash (ascii "-")
  let s := replaceAll s emDash (ascii "-")
  let s := replaceAll s ellipsis (ascii "...")
  let s := replaceAll s nul []
  s

/-! ## Model types (`internal/models`) -/

/-- The struct `ArtistEvent` of `artist.go`: one past participation of an artist.
`EventDate` (a `time.Time`) is kept as an instant number; the composer never reads it. -/
structure ArtistEvent where
  EventID : GoString := []
  EventName : GoString := []
  EventEID : GoString := []
  EventDate : Int := 0
  Round : Int := 0
  EaselNumber : Int := 0
  IsWinner : Bool := false
  deriving DecidableEq, Repr

/-- The struct `EventArtist` of `artist.go`; the defaults are Go's zero values. -/
structure EventArtist where
  ContestantID : GoString := []
  EaselNumber : Int := 0
  RoundNumber : Int := 0
  EventID : GoString := []
  ArtistProfileID : GoString := []
  EntryID : Int := 0
  ArtistName : GoString := []
  Bio : GoString := []
  ABHQBio : GoString := []
  Instagram : GoString := []
  Website : GoString := []
  PersonName : GoString := []
  FirstName : GoString := []
  LastName : GoString := []
  Email : GoString := []
  Phone : GoString := []
  DisplayName : GoString := []
  Status : GoString := []
  Round : Int := 0
  EventHistory : List ArtistEvent := []
  deriving DecidableEq, Repr

/-- The status literal `"confirmed-only"` the composer compares `Status` with. -/
def confirmedOnly : GoString := ascii "confirmed-only"

/-! ## Display name -/

/-- Go's `fmt.Sprintf("%s %s", a, b)`. -/
def sprintfNames (a b : GoString) : GoString := a ++ ascii " " ++ b

/-- The display-name fallback, written out identically in `addArtistListContent`
(lines 159-165), `addAuctionInfoContent` (220-226), `addRoundBiosContent` (314-320) and
`addArtistPageContent` (355-361). -/
def resolveName (artist : EventArtist) : GoString :=
  let artistName := artist.DisplayName
  let artistName := if artistName = [] then artist.ArtistName else artistName
  let artistName :=
    if artistName = [] then sprintfNames artist.FirstName artist.LastName else artistName
  artistName

/-! ## Grouping and filtering -/

/-- The artists for which the row loop of `addArtistListContent` (lines 149-171) draws a
roster row: the loop skips (`continue`) an artist whose status is `"confirmed-only"`. -/
def rosterRowArtists : List EventArtist → List EventArtist
  | [] => []
  | artist :: rest =>
    if artist.Status = confirmedOnly then rosterRowArtists rest
    else artist :: rosterRowArtists rest

/-- The artists for which the row loop of `addAuctionInfoContent` (lines 211-265) draws a
ledger row. -/
def ledgerRowArtists : List EventArtist → List EventArtist
  | [] => []
  | artist :: rest =>
    if artist.Status = confirmedOnly then ledgerRowArtists rest
    else artist :: ledgerRowArtists rest

/-- The artists for which the loop of `GenerateEventPaperwork` (lines 55-62) adds a detail
page. -/
def detailPageArtists : List EventArtist → List EventArtist
  | [] => []
  | artist :: rest =>
    if artist.Status = confirmedOnly then detailPageArtists rest
    else artist :: detailPageArtists rest

/-- The three slices `addBioSummaryPages` fills (lines 271-273). -/
structure BioGroups where
  round1Artists : List EventArtist := []
  round2Artists : List EventArtist := []
  unmatchedArtists : List EventArtist := []
  deriving DecidableEq, Repr

/-- One pass of the grouping loop of `addBioSummaryPages` (lines 276-282). -/
def groupArtist (g : BioGroups) (artist : EventArtist) : BioGroups :=
  if artist.Status = confirmedOnly then
    { g with unmatchedArtists := g.unmatchedArtists ++ [artist] }
  else if artist.RoundNumber = 1 then
    { g with round1Artists := g.round1Artists ++ [artist] }
  else if artist.RoundNumber = 2 then
    { g with round2Artists := g.round2Artists ++ [artist] }
  else g

/-- The grouping loop of `addBioSummaryPages` (lines 271-283), started from three empty
slices. -/
def groupArtists (artists : List EventArtist) : BioGroups :=
  artists.foldl groupArtist {}

/-! ## Dynamic-fit name sizing -/

/-- The constant expression `pageWidth - nameStartX - rightMargin` of `addArtistPageContent`
(lines 346, 351, 395-396), 279.4 - 70 - 20.  Widths are rationals here; no theorem below
depends on the value. -/
def availableWidth : ℚ := 279.4 - 70 - 20

/-- The variables of the shrink loop of `addArtistPageContent` (lines 399-408), with a
counter of the loop bodies executed so far. -/
structure FitState where
  fontSize : Int
  nameWidth : ℚ
  iterations : Nat
  deriving DecidableEq, Repr

/-- The loop `for nameWidth > availableWidth && fontSize > 20` (lines 404-408).
`getStringWidth size s` stands for `pdf.GetStringWidth(s)` after `pdf.SetFont(_, _, size)`.
`fuel` bounds the number of loop bodies; `none` means the fuel ran out. -/
def shrinkLoop (getStringWidth : Int → GoString → ℚ) (artistName : GoString) :
    Nat → FitState → Option FitState
  | 0, st =>
    if st.nameWidth > availableWidth ∧ st.fontSize > 20 then none else some st
  | fuel + 1, st =>
    if st.nameWidth > availableWidth ∧ st.fontSize > 20 then
      shrinkLoop getStringWidth artistName fuel
        { fontSize := st.fontSize - 2
          nameWidth := getStringWidth (st.fontSize - 2) artistName
          iterations := st.iterations + 1 }
    else some st

/-- Lines 399-408 of `addArtistPageContent`: start at 49pt, measure, then run the loop. -/
def fitName (getStringWidth : Int → GoString → ℚ) (artistName : GoString) (fuel : Nat) :
    Option FitState :=
  shrinkLoop getStringWidth artistName fuel
    { fontSize := 49, nameWidth := getStringWidth 49 artistName, iterations := 0 }

/-! ## The sanitizer, character by character

The second description of the sanitizer, following the words of the specification: the
string is read one character at a time, as Go decodes it, and each character is substituted
on its own. -/

/-- A UTF-8 continuation byte, `0x80 .. 0xBF`. -/
def isCont (b : Nat) : Bool := 0x80 ≤ b && b ≤ 0xBF

/-- The range Go's `unicode/utf8` accepts for the second byte after the lead byte `b0` of a
three- or four-byte sequence (no overlong forms, no surrogates, nothing above U+10FFFF). -/
def secondByteOK (b0 b1 : Nat) : Bool :=
  if b0 = 0xE0 then 0xA0 ≤ b1 && b1 ≤ 0xBF
  else if b0 = 0xED then 0x80 ≤ b1 && b1 ≤ 0x9F
  else if b0 = 0xF0 then 0x90 ≤ b1 && b1 ≤ 0xBF
  else if b0 = 0xF4 then 0x80 ≤ b1 && b1 ≤ 0x8F
  else isCont b1

/-- The width Go's `utf8.DecodeRuneInString` reports for the first character of `s`: the
length of a well-formed sequence, `1` for an ASCII byte and for a byte that starts no
well-formed sequence, `0` for the empty string. -/
def charWidth (s : GoString) : Nat :=
  match s with
  | [] => 0
  | b0 :: rest =>
    if 0xC2 ≤ b0 ∧ b0 ≤ 0xDF then
      match rest with
      | b1 :: _ => if isCont b1 then 2 else 1
      | [] => 1
    else if 0xE0 ≤ b0 ∧ b0 ≤ 0xEF then
      match rest with
      | b1 :: b2 :: _ => if secondByteOK b0 b1 ∧ isCont b2 then 3 else 1
      | _ => 1
    else if 0xF0 ≤ b0 ∧ b0 ≤ 0xF4 then
      match rest with
      | b1 :: b2 :: b3 :: _ => if secondByteOK b0 b1 ∧ isCont b2 ∧ isCont b3 then 4 else 1
      | _ => 1
    else 1

/-- The substitution of one character, given by its bytes: the table of the specification. -/
def substChar (ch : GoString) : GoString :=
  if ch = leftDoubleQuote ∨ ch = rightDoubleQuote then ascii "\""
  else if ch = leftSingleQuote ∨ ch = rightSingleQuote then ascii "'"
  else if ch = enDash ∨ ch = emDash then ascii "-"
  else if ch = ellipsis then ascii "..."
  else if ch = nul then []
  else ch

/-- Worker of `substChars`: `skip` counts the bytes of the current character that are still
to be passed over. -/
def substCharsAux : Nat → GoString → GoString
  | _, [] => []
  | skip + 1, _ :: rest => substCharsAux skip rest
  | 0, c :: rest =>
    substChar ((c :: rest).take (charWidth (c :: rest)))
      ++ substCharsAux (charWidth (c :: rest) - 1) rest

/-- Every character of `s`, in order, replaced by its substitution. -/
def substChars (s : GoString) : GoString := substCharsAux 0 s

/-- Worker of `validUTF8`, with the same `skip` as `substCharsAux`. -/
def validUTF8Aux : Nat → GoString → Bool
  | _, [] => true
  | skip + 1, _ :: rest => validUTF8Aux skip rest
  | 0, c :: rest =>
    (c < 0x80 || 2 ≤ charWidth (c :: rest)) && validUTF8Aux (charWidth (c :: rest) - 1) rest

/-- Go's `utf8.ValidString`: every character of `s` is an ASCII byte or a well-formed
multi-byte sequence. -/
def validUTF8 (s : GoString) : Bool := validUTF8Aux 0 s

/-- The encodings of the eight characters the sanitizer maps. -/
def mappedChars : List GoString :=
  [leftDoubleQuote, rightDoubleQuote, leftSingleQuote, rightSingleQuote, enDash, emDash,
    ellipsis, nul]

/-! ## The passes of the sanitizer -/

/-- The third bytes of the seven three-byte characters the sanitizer maps. -/
def isMappedThird (x : Nat) : Prop := x ∈ [0x9C, 0x9D, 0x98, 0x99, 0x93, 0x94, 0xA6]

/-- The seven replacement passes of `cleanString` that precede the removal of NUL. -/
def punctuationRules : List (GoString × GoString) :=
  [(leftDoubleQuote, ascii "\""), (rightDoubleQuote, ascii "\""), (leftSingleQuote, ascii "'"),
    (rightSingleQuote, ascii "'"), (enDash, ascii "-"), (emDash, ascii "-"),
    (ellipsis, ascii "...")]

/-- A list of `ReplaceAll` passes applied in order. -/
def applyRules (rs : List (GoString × GoString)) (s : GoString) : GoString :=
  rs.foldl (fun s r => replaceAll s r.1 r.2) s

/-- A pass that replaces one mapped three-byte character by text starting with an ASCII
byte. -/
def GoodRule (r : GoString × GoString) : Prop :=
  ∃ x n ns, r = ([0xE2, 0x80, x], n :: ns) ∧ isMappedThird x ∧ n < 0x80

/-- The string does not start with the last two bytes of a mapped three-byte character. -/
def Guard (t : GoString) : Prop :=
  ∀ y t', t = 0x80 :: y :: t' → ¬ isMappedThird y

/-! ## Sample inputs -/

/-- The bytes `E2 00 80 9C`: the encoding of U+201C with a NUL after its first byte. -/
def brokenQuote : GoString := [0xE2, 0x00, 0x80, 0x9C]

/-- The text `“Hi” – wait…` followed by a NUL, in UTF-8. -/
def fancyText : GoString :=
  [0xE2, 0x80, 0x9C, 0x48, 0x69, 0xE2, 0x80, 0x9D, 0x20, 0xE2, 0x80, 0x93, 0x20, 0x77, 0x61,
    0x69, 0x74, 0xE2, 0x80, 0xA6, 0x00]

/-- The text `Zoë €5` in UTF-8: none of the eight mapped characters occurs in it. -/
def plainText : GoString := [0x5A, 0x6F, 0xC3, 0xAB, 0x20, 0xE2, 0x82, 0xAC, 0x35]

/-- The first roster entry of the specification's scenario: round 1, easel 1. -/
def janeDoe : EventArtist :=
  { RoundNumber := 1, EaselNumber := 1, FirstName := ascii "Jane", LastName := ascii "Doe" }

/-- The second roster entry of the specification's scenario: confirmed only. -/
def johnPublic : EventArtist :=
  { RoundNumber := 2, EaselNumber := 1, DisplayName := ascii "John Q. Public",
    Status := confirmedOnly }

/-- An artist of a third round who is not confirmed-only. -/
def strayArtist : EventArtist :=
  { RoundNumber := 3, EaselNumber := 1, Status := ascii "ready", DisplayName := ascii "Ann" }

/-- An artist whose four name fields are all empty. -/
def namelessArtist : EventArtist := { RoundNumber := 1, EaselNumber := 2 }

/-- An artist with a stage name and a legal name, and no display name. -/
def stageNameArtist : EventArtist :=
  { ArtistName := ascii "Picasso", FirstName := ascii "Pablo", LastName := ascii "Ruiz" }

/-- A measuring function under which every name is too wide at every size. -/
def alwaysTooWide : Int → GoString → ℚ := fun _ _ => 1000

/-- A measuring function under which every name fits at every size. -/
def alwaysFits : Int → GoString → ℚ := fun _ _ => 10

/-! ## Formatting (`fmt`, `strings`) -/

/-- The decimal digits of `n`, least significant first, as ASCII bytes; `fuel` bounds the
number of digits. -/
def decimalRev : Nat → Nat → GoString
  | 0, _ => []
  | fuel + 1, n => if n < 10 then [48 + n] else (48 + n % 10) :: decimalRev fuel (n / 10)

/-- The decimal numeral of a natural number, without leading zeros. -/
def decimal (n : Nat) : GoString := (decimalRev (n + 1) n).reverse

/-- Go's `fmt.Sprintf("%d", i)` for an `int`. -/
def formatInt (i : Int) : GoString :=
  if i < 0 then 0x2D :: decimal i.natAbs else decimal i.natAbs

/-- The integer nearest to `q`, ties to the even one: the rounding of `%.0f`. -/
def roundHalfEven (q : ℚ) : Int :=
  if q - ⌊q⌋ < 1 / 2 then ⌊q⌋
  else if 1 / 2 < q - ⌊q⌋ then ⌊q⌋ + 1
  else if ⌊q⌋ % 2 = 0 then ⌊q⌋ else ⌊q⌋ + 1

/-- Go's `fmt.Sprintf("%.0f", q)` for a finite `float64`, taken as the rational it holds. -/
def formatFloat0 (q : ℚ) : GoString :=
  if q < 0 then 0x2D :: decimal (roundHalfEven (-q)).natAbs
  else decimal (roundHalfEven q).natAbs

/-- Go's `strings.HasPrefix(s, p)`. -/
def stringsHasPrefix (s p : GoString) : Bool := p.isPrefixOf s

/-- Go's `strings.TrimPrefix(s, p)`. -/
def stringsTrimPrefix (s p : GoString) : GoString :=
  if stringsHasPrefix s p then s.drop p.length else s

/-- The key `fmt.Sprintf("%d-%d", round, easel)` of the lot map, also the round-easel label
of the roster. -/
def roundEaselKey (round easel : Int) : GoString :=
  formatInt round ++ ascii "-" ++ formatInt easel

/-! ## More model types (`internal/models`) -/

/-- The struct `Event` of `event.go`; a `time.Time` is kept as an instant number and a
`float64` as a rational. -/
structure Event where
  ID : GoString := []
  EID : GoString := []
  Name : GoString := []
  Description : GoString := []
  Venue : GoString := []
  EventStartDatetime : Int := 0
  EventEndDatetime : Int := 0
  TimezoneID : GoString := []
  TimezoneOffset : GoString := []
  TimezoneIcann : GoString := []
  CityID : GoString := []
  CountryID : GoString := []
  Enabled : Bool := false
  ShowInApp : Bool := false
  CurrentRound : Int := 0
  ArtWidthHeight : GoString := []
  VoteByLink : Bool := false
  RegisterAtSmsVote : Bool := false
  SendLinkToGuests : Bool := false
  EmailRegistration : Bool := false
  EnableAuction : Bool := false
  AuctionStartBid : ℚ := 0
  MinBidIncrement : ℚ := 0
  Currency : GoString := []
  CreatedAt : Int := 0
  UpdatedAt : Int := 0
  deriving DecidableEq

/-- The struct `Bid` of `bid.go`. -/
structure Bid where
  ID : GoString := []
  EventID : GoString := []
  Round : Int := 0
  EaselNumber : Int := 0
  BidderID : GoString := []
  Amount : ℚ := 0
  IsWinning : Bool := false
  BidTime : Int := 0
  PaymentStatus : GoString := []
  CreatedAt : Int := 0
  UpdatedAt : Int := 0
  BidderName : GoString := []
  BidderEmail : GoString := []
  BidderPhone : GoString := []
  deriving DecidableEq

/-- The struct `AuctionLot` of `bid.go`; `WinningBid` is a pointer that may be nil. -/
structure AuctionLot where
  EventID : GoString := []
  Round : Int := 0
  EaselNumber : Int := 0
  ArtistName : GoString := []
  BidCount : Int := 0
  HighestBid : ℚ := 0
  WinningBid : Option Bid := none
  AllBids : List Bid := []
  deriving DecidableEq

/-- The struct `PaperworkData` of `event_service.go`: the fetched payload. -/
structure PaperworkData where
  Event : Event := {}
  Artists : List EventArtist := []
  AuctionLots : List AuctionLot := []
  TotalArtists : Int := 0
  TotalBids : Int := 0
  GeneratedAt : GoString := []
  deriving DecidableEq

/-! ## The canvas

The composer drives a `*gofpdf.Fpdf` and a logger.  Both are kept as the list of the calls
made on them, in order; lengths are rationals (millimetres, points). -/

/-- One call on the canvas or on the logger. -/
inductive Op where
  /-- `pdf.AddUTF8Font(family, "", file)`. -/
  | addUTF8Font (family file : GoString)
  /-- `pdf.AddPage()`. -/
  | addPage
  /-- `pdf.RegisterImageOptions(path, ...)`. -/
  | registerImage (path : GoString)
  /-- `pdf.ImageOptions(name, x, y, w, h, ...)`. -/
  | image (name : GoString) (x y w h : ℚ)
  /-- `pdf.RegisterImageOptionsReader(name, ...)` with the PNG of the QR code of `url`. -/
  | registerQR (name url : GoString)
  /-- `pdf.SetFont(family, "", size)`. -/
  | setFont (family : GoString) (size : ℚ)
  /-- `pdf.SetTextColor(r, g, b)`. -/
  | setTextColor (r g b : Nat)
  /-- `pdf.SetDrawColor(r, g, b)`. -/
  | setDrawColor (r g b : Nat)
  /-- `pdf.SetXY(x, y)`. -/
  | setXY (x y : ℚ)
  /-- `pdf.SetX(x)`. -/
  | setX (x : ℚ)
  /-- `pdf.Ln(h)`. -/
  | ln (h : ℚ)
  /-- `pdf.Cell(w, h, txt)`. -/
  | cell (w h : ℚ) (txt : GoString)
  /-- `pdf.CellFormat(w, h, txt, border, 0, align, false, 0, "")`. -/
  | cellFormat (w h : ℚ) (txt border align : GoString)
  /-- `pdf.MultiCell(w, h, txt, "", align, false)`. -/
  | multiCell (w h : ℚ) (txt align : GoString)
  /-- `logger.Debug(msg, ...)`. -/
  | logDebug (msg : GoString)
  /-- `logger.Warn(msg, ...)`. -/
  | logWarn (msg : GoString)
  deriving DecidableEq

/-- The fields of the struct `PaperworkPDFService` the composer reads. -/
structure PaperworkPDFService where
  backgroundsPath : GoString := []
  fontsPath : GoString := []

/-- What the composer asks of the world outside the repository. -/
structure World where
  /-- `filepath.Join(dir, file)`. -/
  joinPath : GoString → GoString → GoString
  /-- Whether `os.Stat(path)` returns no error. -/
  fileExists : GoString → Bool
  /-- The order in which `range` visits the entries of the map `fonts` of `addCustomFonts`;
  Go leaves it unspecified. -/
  fontOrder : List (GoString × GoString)
  /-- The result of `pdf.GetStringWidth(s)` under the font `AcuminBold` at the given size. -/
  getStringWidth : Int → GoString → ℚ
  /-- Whether `qrcode.New(url, qrcode.Medium)` and the PNG encoding of its image succeed. -/
  qrEncodes : GoString → Bool
  /-- The result of `pdf.Output` on a canvas that received the given calls: the bytes of the
  document, or an error. -/
  output : List Op → Except GoString (List Nat)

/-- The entries of the map `fonts` of `addCustomFonts` (lines 76-80). -/
def customFonts : List (GoString × GoString) :=
  [(ascii "AcuminMedium", ascii "Acumin Pro SemiCond Medium.ttf"),
    (ascii "AcuminBold", ascii "Acumin Pro Cond Bold.ttf"),
    (ascii "AcuminSemibold", ascii "Acumin Pro SemiCond Semibold.ttf")]

/-- The body of the loop of `addCustomFonts` (lines 83-94) for one entry of the map. -/
def addCustomFont (s : PaperworkPDFService) (w : World) (font : GoString × GoString) :
    List Op :=
  if w.fileExists (w.joinPath s.fontsPath font.2) then
    [Op.addUTF8Font font.1 (w.joinPath s.fontsPath font.2), Op.logDebug (ascii "Added custom font")]
  else [Op.logWarn (ascii "Font file not found, using default")]

/-- The function `addCustomFonts` (lines 74-96). -/
def addCustomFonts (s : PaperworkPDFService) (w : World) : List Op :=
  (w.fontOrder.map (addCustomFont s w)).flatten

/-- The function `addPageWithBackground` (lines 99-117). -/
def addPageWithBackground (s : PaperworkPDFService) (w : World) (backgroundFile : GoString) :
    List Op :=
  Op.addPage ::
    (if w.fileExists (w.joinPath s.backgroundsPath backgroundFile) then
      [Op.registerImage (w.joinPath s.backgroundsPath backgroundFile),
        Op.image (w.joinPath s.backgroundsPath backgroundFile) 0 0 279.4 215.9,
        Op.logDebug (ascii "Added background image")]
    else [Op.logDebug (ascii "Background image not found, using blank page")])

/-- The header loops of the two tables (lines 139-144 and 194-199): one bordered, centred
cell per header, each starting where the previous one ended. -/
def headerRow : ℚ → List GoString → List ℚ → List Op
  | x, header :: headers, width :: widths =>
    Op.setX x :: Op.cellFormat width 8 header (ascii "1") (ascii "C")
      :: headerRow (x + width) headers widths
  | _, _, _ => []

/-! ## The roster page -/

/-- The drawing of one roster row (lines 155-170): the round-easel label and the name. -/
def rosterRowOps (artist : EventArtist) : List Op :=
  [Op.setX 20,
    Op.cellFormat 40 8 (roundEaselKey artist.RoundNumber artist.EaselNumber) (ascii "1")
      (ascii "C"),
    Op.cellFormat 130 8 (cleanString (resolveName artist)) (ascii "1") (ascii "L"),
    Op.ln 8]

/-- The row loop of `addArtistListContent` (lines 149-171). -/
def artistListRows : List EventArtist → List Op
  | [] => []
  | artist :: rest =>
    if artist.Status = confirmedOnly then artistListRows rest
    else rosterRowOps artist ++ artistListRows rest

/-- The function `addArtistListContent` (lines 120-172).  `pdf.GetX()` on line 139 follows
`pdf.SetXY(20, 40)` and is 20. -/
def addArtistListContent (eventName : GoString) (artists : List EventArtist) : List Op :=
  [Op.setFont (ascii "AcuminBold") 24, Op.setXY 20 20, Op.cell 0 10 (cleanString eventName),
    Op.setFont (ascii "AcuminMedium") 10, Op.setXY 20 40,
    Op.setFont (ascii "AcuminSemibold") 10, Op.setTextColor 0 0 0,
    Op.setDrawColor 200 200 200]
  ++ headerRow 20 [ascii "Round-Easel", ascii "Artist Name"] [40, 130]
  ++ [Op.ln 8, Op.setFont (ascii "AcuminMedium") 10]
  ++ artistListRows artists

/-! ## The auction ledger page -/

/-- The loop that fills `lotMap` (lines 203-207); the Go map is kept as its lookup function,
and a later lot with the same key replaces an earlier one. -/
def buildLotMap (auctionLots : List AuctionLot) : GoString → Option AuctionLot :=
  auctionLots.foldl
    (fun lotMap lot key =>
      if key = roundEaselKey lot.Round lot.EaselNumber then some lot else lotMap key)
    (fun _ => none)

/-- The currency symbol chosen on lines 240-245. -/
def currencySymbol (currency : GoString) : GoString :=
  if currency = ascii "EUR" then [0xE2, 0x82, 0xAC]
  else if currency = ascii "GBP" then [0xC2, 0xA3]
  else ascii "$"

/-- The four variables `bidCount`, `topBid`, `bidderInfo`, `paymentStatus` of a ledger row. -/
structure LedgerValues where
  bidCount : GoString
  topBid : GoString
  bidderInfo : GoString
  paymentStatus : GoString
  deriving DecidableEq

/-- Lines 232-255 of `addAuctionInfoContent`: the placeholders, overwritten from the lot
when the map holds one. -/
def ledgerValues (currency : GoString) : Option AuctionLot → LedgerValues
  | none =>
    { bidCount := ascii "0", topBid := ascii "-", bidderInfo := ascii "-",
      paymentStatus := ascii "-" }
  | some lot =>
    { bidCount := formatInt lot.BidCount
      topBid :=
        if lot.HighestBid > 0 then currencySymbol currency ++ formatFloat0 lot.HighestBid
        else ascii "-"
      bidderInfo :=
        match lot.WinningBid with
        | some bid => if bid.BidderName = [] then bid.BidderEmail else bid.BidderName
        | none => ascii "-"
      paymentStatus :=
        match lot.WinningBid with
        | some bid => bid.PaymentStatus
        | none => ascii "-" }

/-- The label `fmt.Sprintf("%s-%d-%d", eventEID, round, easel)` of line 219. -/
def eidRoundEasel (eventEID : GoString) (artist : EventArtist) : GoString :=
  eventEID ++ ascii "-" ++ formatInt artist.RoundNumber ++ ascii "-"
    ++ formatInt artist.EaselNumber

/-- The six cells of one ledger row (lines 258-263), in order. -/
def ledgerRowTexts (eventEID currency : GoString) (lotMap : GoString → Option AuctionLot)
    (artist : EventArtist) : List GoString :=
  [eidRoundEasel eventEID artist,
    cleanString (resolveName artist),
    (ledgerValues currency
      (lotMap (roundEaselKey artist.RoundNumber artist.EaselNumber))).bidCount,
    (ledgerValues currency
      (lotMap (roundEaselKey artist.RoundNumber artist.EaselNumber))).topBid,
    cleanString (ledgerValues currency
      (lotMap (roundEaselKey artist.RoundNumber artist.EaselNumber))).bidderInfo,
    cleanString (ledgerValues currency
      (lotMap (roundEaselKey artist.RoundNumber artist.EaselNumber))).paymentStatus]

/-- The drawing of one ledger row (lines 216-217 and 258-264). -/
def ledgerRowOps (texts : List GoString) : List Op :=
  Op.setX 20 ::
    (List.zipWith (fun p txt => Op.cellFormat p.1 8 txt (ascii "1") p.2)
      [(40, ascii "C"), (60, ascii "L"), (20, ascii "C"), (25, ascii "C"), (60, ascii "L"),
        (35, ascii "C")] texts)
    ++ [Op.ln 8]

/-- The row loop of `addAuctionInfoContent` (lines 211-265). -/
def auctionRows (eventEID currency : GoString) (lotMap : GoString → Option AuctionLot) :
    List EventArtist → List Op
  | [] => []
  | artist :: rest =>
    if artist.Status = confirmedOnly then auctionRows eventEID currency lotMap rest
    else ledgerRowOps (ledgerRowTexts eventEID currency lotMap artist)
      ++ auctionRows eventEID currency lotMap rest

/-- The function `addAuctionInfoContent` (lines 175-266). -/
def addAuctionInfoContent (eventEID currency : GoString) (artists : List EventArtist)
    (auctionLots : List AuctionLot) : List Op :=
  [Op.setFont (ascii "AcuminBold") 20, Op.setXY 20 20,
    Op.cell 0 10 (ascii "Auction & Bidding Information"),
    Op.setFont (ascii "AcuminMedium") 9, Op.setXY 20 40,
    Op.setFont (ascii "AcuminSemibold") 9, Op.setTextColor 0 0 0,
    Op.setDrawColor 200 200 200]
  ++ headerRow 20
      [ascii "EID-Round-Easel", ascii "Artist Name", ascii "# Bids", ascii "Top Bid",
        ascii "Bidder Info", ascii "Payment Status"]
      [40, 60, 20, 25, 60, 35]
  ++ [Op.ln 8, Op.setFont (ascii "AcuminMedium") 9]
  ++ auctionRows eventEID currency (buildLotMap auctionLots) artists

/-! ## The bio summary pages -/

/-- The body of the loop of `addRoundBiosContent` (lines 314-338) for one artist. -/
def artistBioOps (artist : EventArtist) : List Op :=
  [Op.setFont (ascii "AcuminSemibold") 12, Op.cell 0 8 (cleanString (resolveName artist)),
    Op.ln 8]
  ++ (if artist.Bio ≠ [] then
        [Op.setFont (ascii "AcuminMedium") 10,
          Op.multiCell 0 6 (cleanString artist.Bio) (ascii "L"), Op.ln 4]
      else
        [Op.setFont (ascii "AcuminMedium") 10, Op.cell 0 6 (ascii "No bio available"),
          Op.ln 10])

/-- The function `addRoundBiosContent` (lines 305-340). -/
def addRoundBiosContent (eventName roundTitle : GoString) (artists : List EventArtist) :
    List Op :=
  [Op.setFont (ascii "AcuminBold") 24, Op.setXY 20 20,
    Op.cell 0 10 (cleanString eventName ++ ascii " - " ++ roundTitle),
    Op.setFont (ascii "AcuminMedium") 10, Op.setXY 20 40]
  ++ (artists.map artistBioOps).flatten

/-- One of the three `if len(...) > 0` blocks of `addBioSummaryPages` (lines 286-301). -/
def bioPage (s : PaperworkPDFService) (w : World) (eventName roundTitle : GoString)
    (artists : List EventArtist) : List Op :=
  if artists.length > 0 then
    addPageWithBackground s w (ascii "artist-list-bg.png")
      ++ addRoundBiosContent eventName roundTitle artists
  else []

/-- The function `addBioSummaryPages` (lines 269-302). -/
def addBioSummaryPages (s : PaperworkPDFService) (w : World) (eventName : GoString)
    (artists : List EventArtist) : List Op :=
  bioPage s w eventName (ascii "Round 1 Artist Bios") (groupArtists artists).round1Artists
  ++ bioPage s w eventName (ascii "Round 2 Artist Bios") (groupArtists artists).round2Artists
  ++ bioPage s w eventName (ascii "Additional Artist Bios")
      (groupArtists artists).unmatchedArtists

/-! ## The detail pages -/

/-- The URL the QR code encodes (lines 364-375 of `addArtistPageContent`). -/
def qrURL (eventEID : GoString) (artist : EventArtist) : GoString :=
  if artist.Instagram ≠ [] then
    if stringsHasPrefix artist.Instagram (ascii "http") then artist.Instagram
    else ascii "https://instagram.com/" ++ stringsTrimPrefix artist.Instagram (ascii "@")
  else ascii "https://artb.art/event/" ++ eventEID

/-- Lines 377-392: the QR code is registered under `qr_<EntryID>` and placed, unless its
generation fails. -/
def qrOps (w : World) (eventEID : GoString) (artist : EventArtist) : List Op :=
  if w.qrEncodes (qrURL eventEID artist) then
    [Op.registerQR (ascii "qr_" ++ formatInt artist.EntryID) (qrURL eventEID artist),
      Op.image (ascii "qr_" ++ formatInt artist.EntryID) 20 45 42 42]
  else []

/-- The canvas calls of the shrink loop (lines 404-408): one `SetFont` per body.  The
loop variables are those of `shrinkLoop`; `fuel` bounds the number of bodies. -/
def shrinkFontOps (getStringWidth : Int → GoString → ℚ) (artistName : GoString) :
    Nat → Int → ℚ → List Op
  | 0, _, _ => []
  | fuel + 1, fontSize, nameWidth =>
    if nameWidth > availableWidth ∧ fontSize > 20 then
      Op.setFont (ascii "AcuminBold") ((fontSize - 2 : Int) : ℚ)
        :: shrinkFontOps getStringWidth artistName fuel (fontSize - 2)
            (getStringWidth (fontSize - 2) artistName)
    else []

/-- The condensed text of one past event (lines 448-452):
`fmt.Sprintf("%s R%d-E%d%s", EventEID, Round, EaselNumber, winnerText)`. -/
def historyLine (event : ArtistEvent) : GoString :=
  event.EventEID ++ ascii " R" ++ formatInt event.Round ++ ascii "-E"
    ++ formatInt event.EaselNumber ++ (if event.IsWinner then ascii " W" else [])

/-- The summary text of line 442:
`fmt.Sprintf("... and %d more events", len(artist.EventHistory)-maxEvents)`. -/
def moreEventsLine (historyLength : Nat) : GoString :=
  ascii "... and " ++ formatInt ((historyLength : Int) - 20) ++ ascii " more events"

/-- The texts of the loop over `artist.EventHistory` (lines 439-453), each with its index
`i`: past index 19 one summary line is written and the loop is left. -/
def historyTexts (historyLength : Nat) : Nat → List ArtistEvent → List (Nat × GoString)
  | _, [] => []
  | i, event :: rest =>
    if i ≥ 20 then [(i, moreEventsLine historyLength)]
    else (i, historyLine event) :: historyTexts historyLength (i + 1) rest

/-- The drawing of one line of the event history (lines 441-442 and 446, 452). -/
def historyLineOps (line : Nat × GoString) : List Op :=
  [Op.setXY 20 (118 + (line.1 : ℚ) * 6), Op.cell 115 6 line.2]

/-- The left column of a detail page: the event history (lines 433-453). -/
def historyOps (eventHistory : List ArtistEvent) : List Op :=
  ((historyTexts eventHistory.length 0 eventHistory).map historyLineOps).flatten

/-- The function `addArtistPageContent` (lines 343-465). -/
def addArtistPageContent (w : World) (eventName eventEID : GoString) (artist : EventArtist) :
    List Op :=
  qrOps w eventEID artist
  ++ [Op.setFont (ascii "AcuminBold") 49]
  ++ shrinkFontOps w.getStringWidth (resolveName artist) 15 49
      (w.getStringWidth 49 (resolveName artist))
  ++ [Op.setTextColor 0 0 0, Op.setXY 70 48,
      Op.cell availableWidth 10 (cleanString (resolveName artist)),
      Op.setFont (ascii "AcuminMedium") 18, Op.setXY 70 69,
      Op.cell 0 6 (cleanString eventName),
      Op.setFont (ascii "AcuminMedium") 21, Op.setXY 70 77,
      Op.cell 0 8 (ascii "Round " ++ formatInt artist.RoundNumber ++ ascii " - Easel "
        ++ formatInt artist.EaselNumber),
      Op.setFont (ascii "AcuminMedium") 12]
  ++ historyOps artist.EventHistory
  ++ [Op.setFont (ascii "AcuminMedium") 14, Op.setXY 145 118]
  ++ (if artist.Bio ≠ [] then [Op.multiCell 114.4 6 (cleanString artist.Bio) (ascii "L")]
      else [Op.cell 114.4 6 (ascii "No bio available")])

/-- The loop of `GenerateEventPaperwork` over the artists (lines 55-62). -/
def detailPages (s : PaperworkPDFService) (w : World) (eventName eventEID : GoString) :
    List EventArtist → List Op
  | [] => []
  | artist :: rest =>
    if artist.Status = confirmedOnly then detailPages s w eventName eventEID rest
    else addPageWithBackground s w (ascii "artist-page-bg.png")
      ++ addArtistPageContent w eventName eventEID artist
      ++ detailPages s w eventName eventEID rest

/-! ## The composer -/

/-- Lines 36-62 of `GenerateEventPaperwork`: every call made on the canvas and the logger
before `pdf.Output`. -/
def composeOps (s : PaperworkPDFService) (w : World) (event : Event)
    (artists : List EventArtist) (auctionLots : List AuctionLot) : List Op :=
  addCustomFonts s w
  ++ addPageWithBackground s w (ascii "artist-list-bg.png")
  ++ addArtistListContent event.Name artists
  ++ addPageWithBackground s w (ascii "auction-info-bg.png")
  ++ addAuctionInfoContent event.EID event.Currency artists auctionLots
  ++ addBioSummaryPages s w event.Name artists
  ++ detailPages s w event.Name event.EID artists

/-- The method `GenerateEventPaperwork` of `PaperworkPDFService` (lines 35-71): the bytes
and the error it returns; `none` is Go's `nil`. -/
def GenerateEventPaperwork (s : PaperworkPDFService) (w : World) (event : Event)
    (artists : List EventArtist) (auctionLots : List AuctionLot) :
    Option (List Nat) × Option GoString :=
  match w.output (composeOps s w event artists auctionLots) with
  | Except.error err => (none, some (ascii "failed to generate PDF: " ++ err))
  | Except.ok bytes => (some bytes, none)

/-! ## The handler (`internal/handlers/paperwork_handler.go`) -/

/-- What the handler writes to the client. -/
inductive Response where
  /-- `respondWithError(w, code, message)`. -/
  | error (code : Nat) (message : GoString)
  /-- The PDF download of lines 81-87. -/
  | pdf (body : Option (List Nat))
  deriving DecidableEq

/-- The outcome of one request: the response, and the arguments of the call of the
composer when the handler made it. -/
structure Outcome where
  response : Response
  composed : Option (Event × List EventArtist × List AuctionLot)

/-- The method `GenerateEventPaperwork` of `PaperworkHandler` (lines 35-100).  `eid` is the
result of the lookup `vars["eid"]`; `fetch` is `eventService.GetEventPaperworkData`. -/
def PaperworkHandler.GenerateEventPaperwork (s : PaperworkPDFService) (w : World)
    (fetch : GoString → Except GoString PaperworkData) (eid : Option GoString) : Outcome :=
  match eid with
  | none => { response := Response.error 400 (ascii "Event EID is required"), composed := none }
  | some eid =>
    if eid = [] then
      { response := Response.error 400 (ascii "Event EID is required"), composed := none }
    else
      match fetch eid with
      | Except.error err =>
        if err = ascii "event not found: " ++ eid then
          { response := Response.error 404 (ascii "Event not found"), composed := none }
        else
          { response := Response.error 500 (ascii "Failed to fetch event data"),
            composed := none }
      | Except.ok data =>
        if data.Artists.length = 0 then
          { response := Response.error 404 (ascii "No artists found for this event"),
            composed := none }
        else
          match Paperwork.GenerateEventPaperwork s w data.Event data.Artists
              data.AuctionLots with
          | (_, some _) =>
            { response := Response.error 500 (ascii "Failed to generate PDF"),
              composed := some (data.Event, data.Artists, data.AuctionLots) }
          | (pdfData, none) =>
            { response := Response.pdf pdfData,
              composed := some (data.Event, data.Artists, data.AuctionLots) }

/-! ## Reading the canvas -/

/-- The text a call places on the page, for the three calls that place text. -/
def Op.text? : Op → Option GoString
  | Op.cell _ _ txt => some txt
  | Op.cellFormat _ _ txt _ _ => some txt
  | Op.multiCell _ _ txt _ => some txt
  | _ => none

/-- Every text placed on a page, in the order of placing. -/
def placedTexts (ops : List Op) : List GoString := ops.filterMap Op.text?

/-- The number of pages: the calls of `pdf.AddPage`. -/
def pageCount : List Op → Nat
  | [] => 0
  | Op.addPage :: rest => pageCount rest + 1
  | _ :: rest => pageCount rest

/-- The first text placed before the next `pdf.AddPage`, if there is one. -/
def firstText : List Op → Option GoString
  | [] => none
  | Op.addPage :: _ => none
  | Op.cell _ _ txt :: _ => some txt
  | Op.cellFormat _ _ txt _ _ :: _ => some txt
  | Op.multiCell _ _ txt _ :: _ => some txt
  | _ :: rest => firstText rest

/-- The heading of every page, in order: the first text placed after each `pdf.AddPage`. -/
def pageHeadings : List Op → List (Option GoString)
  | [] => []
  | Op.addPage :: rest => firstText rest :: pageHeadings rest
  | _ :: rest => pageHeadings rest

/-- The heading of a bio page when the group has an artist, no page otherwise. -/
def bioHeading (eventName roundTitle : GoString) (artists : List EventArtist) :
    List (Option GoString) :=
  if artists.length > 0 then [some (cleanString eventName ++ ascii " - " ++ roundTitle)]
  else []

/-- Whether a call registers a font. -/
def Op.isAddFont : Op → Bool
  | Op.addUTF8Font _ _ => true
  | _ => false

/-- The first font family that `pdf.SetFont` selects without an earlier `pdf.AddUTF8Font`
of that family.  The composer selects no core font of gofpdf, so such a family is unknown
to the canvas. -/
def undefinedFont : List GoString → List Op → Option GoString
  | _, [] => none
  | added, Op.addUTF8Font family _ :: rest => undefinedFont (family :: added) rest
  | added, Op.setFont family _ :: rest =>
    if family ∈ added then undefinedFont added rest else some family
  | added, _ :: rest => undefinedFont added rest

/-- A canvas that behaves as gofpdf documents for fonts: `SetFont` with a family that is
neither a core font nor added records the error `undefined font`, later calls do nothing,
and `Output` returns the recorded error.  Every other failure of `Output` is left out. -/
def outputRejectingUndefinedFont (ops : List Op) : Except GoString (List Nat) :=
  match undefinedFont [] ops with
  | some family => Except.error (ascii "undefined font: " ++ family)
  | none => Except.ok []

/-! ## More sample inputs -/

/-- The event of the specification's scenario. -/
def scenarioEvent : Event :=
  { EID := ascii "AB2995", Name := ascii "Art Battle", Currency := ascii "USD" }

/-- The auction lot of the specification's scenario: round 1, easel 1, highest bid 250. -/
def scenarioLot : AuctionLot := { Round := 1, EaselNumber := 1, BidCount := 3, HighestBid := 250 }

/-- An event whose short code holds a left double quotation mark: `“AB`. -/
def quotedEvent : Event := { EID := [0xE2, 0x80, 0x9C, 0x41, 0x42], Name := ascii "Art Battle" }

/-- A past event whose code holds a horizontal ellipsis: `AB…`. -/
def dottedPastEvent : ArtistEvent :=
  { EventEID := [0x41, 0x42, 0xE2, 0x80, 0xA6], Round := 1, EaselNumber := 2, IsWinner := true }

/-- An artist with that past event. -/
def veteranArtist : EventArtist :=
  { RoundNumber := 1, EaselNumber := 3, DisplayName := ascii "Bea",
    EventHistory := [dottedPastEvent] }

/-- A past event, not won. -/
def pastEvent : ArtistEvent := { EventEID := ascii "AB100", Round := 2, EaselNumber := 4 }

/-- An artist whose Instagram field is a full link. -/
def linkArtist : EventArtist := { Instagram := ascii "https://example.com/ann" }

/-- An artist whose Instagram field is a handle with the at sign. -/
def handleArtist : EventArtist := { Instagram := ascii "@ann" }

/-- A world in which no font file and no background image exists, every name fits, every
QR code can be made, and the canvas rejects an undefined font. -/
def bareWorld : World :=
  { joinPath := fun dir file => dir ++ ascii "/" ++ file
    fileExists := fun _ => false
    fontOrder := customFonts
    getStringWidth := fun _ _ => 10
    qrEncodes := fun _ => true
    output := outputRejectingUndefinedFont }

/-- The same world with every file present. -/
def fullWorld : World :=
  { joinPath := fun dir file => dir ++ ascii "/" ++ file
    fileExists := fun _ => true
    fontOrder := customFonts
    getStringWidth := fun _ _ => 10
    qrEncodes := fun _ => true
    output := outputRejectingUndefinedFont }

/-- A fetch that answers every request with a payload of one artist, confirmed only. -/
def confirmedOnlyFetch : GoString → Except GoString PaperworkData :=
  fun _ => Except.ok { Event := scenarioEvent, Artists := [johnPublic] }

/-- A fetch that answers every request with a payload without artists. -/
def emptyFetch : GoString → Except GoString PaperworkData :=
  fun _ => Except.ok { Event := scenarioEvent }

/-! ## The page -/

/-- The constant `pageHeight` of `addArtistPageContent` (line 348): the height, in
millimetres, of the landscape Letter page made on line 37.  Line 38 switches the automatic
page break off, so a cell is drawn where it is put, also past the bottom edge. -/
def pageHeight : ℚ := 215.9

/-- Whether a cell with top edge `y` and height `h` lies entirely within the page. -/
def withinPage (y h : ℚ) : Prop := 0 ≤ y ∧ y + h ≤ pageHeight

/-- The cells drawn by `pdf.Cell` right after a `pdf.SetXY`, in order, each as its top edge
`y`, its height and its text. -/
def cellBoxes : List Op → List (ℚ × ℚ × GoString)
  | [] => []
  | Op.setXY _ y :: Op.cell _ h txt :: rest => (y, h, txt) :: cellBoxes rest
  | _ :: rest => cellBoxes rest

/-! ## Sample inputs for the lot join and the name fit -/

/-- A second lot of round 1, easel 1, later in the list than `scenarioLot`. -/
def lateLot : AuctionLot := { Round := 1, EaselNumber := 1, BidCount := 7 }

/-- A lot of round 2, easel 1. -/
def otherLot : AuctionLot := { Round := 2, EaselNumber := 1, BidCount := 1 }

/-- An artist whose display name ends in a horizontal ellipsis: `Ann…`. -/
def dottedArtist : EventArtist :=
  { RoundNumber := 1, EaselNumber := 1, DisplayName := [0x41, 0x6E, 0x6E, 0xE2, 0x80, 0xA6] }

/-! # Theorems -/

/-! ## The sanitizer -/

theorem cleanString_eq_applyRules (s : GoString) :
    cleanString s = replaceAll (applyRules punctuationRules s) nul [] := rfl

theorem goodRule_punctuationRules : ∀ r ∈ punctuationRules, GoodRule r := by
  intro r hr
  simp only [punctuationRules, List.mem_cons, List.mem_singleton, List.not_mem_nil,
    or_false] at hr
  rcases hr with h | h | h | h | h | h | h <;> subst h
  · exact ⟨0x9C, 0x22, [], rfl, by simp [isMappedThird], by decide⟩
  · exact ⟨0x9D, 0x22, [], rfl, by simp [isMappedThird], by decide⟩
  · exact ⟨0x98, 0x27, [], rfl, by simp [isMappedThird], by decide⟩
  · exact ⟨0x99, 0x27, [], rfl, by simp [isMappedThird], by decide⟩
  · exact ⟨0x93, 0x2D, [], rfl, by simp [isMappedThird], by decide⟩
  · exact ⟨0x94, 0x2D, [], rfl, by simp [isMappedThird], by decide⟩
  · exact ⟨0xA6, 0x2E, [0x2E, 0x2E], rfl, by simp [isMappedThird], by decide⟩

theorem isMappedThird_ge {x : Nat} (h : isMappedThird x) : 0x93 ≤ x ∧ x ≤ 0xA6 := by
  simp only [isMappedThird, List.mem_cons, List.mem_singleton, List.not_mem_nil,
    or_false] at h
  omega

theorem replaceAll_nil (old new : GoString) : replaceAll [] old new = [] := by
  simp [replaceAll, replaceAllAux]

theorem replaceAll_cons_of_no_match (old new : GoString) (c : Nat) (rest : GoString)
    (h : old.isPrefixOf (c :: rest) = false) :
    replaceAll (c :: rest) old new = c :: replaceAll rest old new := by
  simp [replaceAll, replaceAllAux, h]

theorem replaceAll_three_match (a b c : Nat) (new rest : GoString) :
    replaceAll (a :: b :: c :: rest) [a, b, c] new = new ++ replaceAll rest [a, b, c] new := by
  simp [replaceAll, replaceAllAux]

theorem replaceAll_cons_of_ne (a b c d : Nat) (new rest : GoString) (h : d ≠ a) :
    replaceAll (d :: rest) [a, b, c] new = d :: replaceAll rest [a, b, c] new := by
  apply replaceAll_cons_of_no_match
  simp [List.isPrefixOf, Ne.symm h]

theorem replaceAll_guarded (x : Nat) (new t : GoString) (hx : isMappedThird x)
    (hg : Guard t) :
    replaceAll (0xE2 :: t) [0xE2, 0x80, x] new = 0xE2 :: replaceAll t [0xE2, 0x80, x] new := by
  apply replaceAll_cons_of_no_match
  cases t with
  | nil => simp [List.isPrefixOf]
  | cons d t1 =>
    cases t1 with
    | nil => simp [List.isPrefixOf]
    | cons e t2 =>
      by_cases hd : d = 0x80
      · subst hd
        have he : e ≠ x := by
          intro h
          subst h
          exact hg e t2 rfl hx
        simp [List.isPrefixOf, Ne.symm he]
      · simp [List.isPrefixOf, Ne.symm hd]

theorem guard_nil : Guard [] := by
  intro y t' h
  cases h

theorem guard_cons_of_ne (d : Nat) (t : GoString) (h : d ≠ 0x80) : Guard (d :: t) := by
  intro y t' e
  injection e with e1 _
  exact absurd e1 h

theorem guard_two (y : Nat) (t : GoString) (h : ¬ isMappedThird y) :
    Guard (0x80 :: y :: t) := by
  intro y' t' e
  injection e with _ e2
  injection e2 with e3 _
  rw [← e3]
  exact h

/-- A pass leaves a guarded string guarded. -/
theorem guard_replaceAll (r : GoString × GoString) (t : GoString) (hr : GoodRule r)
    (hg : Guard t) : Guard (replaceAll t r.1 r.2) := by
  obtain ⟨x, n, ns, rfl, hx, hn⟩ := hr
  have hx' := isMappedThird_ge hx
  simp only
  cases t with
  | nil => rw [replaceAll_nil]; exact guard_nil
  | cons d t1 =>
    by_cases hd : d = 0x80
    · subst hd
      rw [replaceAll_cons_of_ne _ _ _ _ _ _ (by decide)]
      cases t1 with
      | nil =>
        rw [replaceAll_nil]
        intro y t' e
        cases e
      | cons e t2 =>
        have he : ¬ isMappedThird e := hg e t2 rfl
        by_cases hpre : ([0xE2, 0x80, x] : GoString).isPrefixOf (e :: t2) = true
        · have hshape : ∃ t3, e :: t2 = 0xE2 :: 0x80 :: x :: t3 := by
            obtain ⟨t3, ht3⟩ := List.isPrefixOf_iff_prefix.mp hpre
            exact ⟨t3, by simpa using ht3.symm⟩
          obtain ⟨t3, ht3⟩ := hshape
          rw [ht3, replaceAll_three_match]
          intro y t' e'
          simp only [List.cons_append] at e'
          injection e' with _ e2
          injection e2 with e3 _
          intro hy
          have := isMappedThird_ge hy
          omega
        · rw [replaceAll_cons_of_no_match _ _ _ _ (Bool.eq_false_iff.mpr hpre)]
          exact guard_two _ _ he
    · by_cases hpre : ([0xE2, 0x80, x] : GoString).isPrefixOf (d :: t1) = true
      · obtain ⟨t3, ht3⟩ := List.isPrefixOf_iff_prefix.mp hpre
        have ht3' : d :: t1 = 0xE2 :: 0x80 :: x :: t3 := by simpa using ht3.symm
        rw [ht3', replaceAll_three_match]
        intro y t' e'
        simp only [List.cons_append] at e'
        injection e' with e1 _
        omega
      · rw [replaceAll_cons_of_no_match _ _ _ _ (Bool.eq_false_iff.mpr hpre)]
        exact guard_cons_of_ne _ _ hd

theorem applyRules_nil (rs : List (GoString × GoString)) (h : ∀ r ∈ rs, GoodRule r) :
    applyRules rs [] = [] := by
  induction rs with
  | nil => rfl
  | cons r rs ih =>
    obtain ⟨x, n, ns, rfl, _, _⟩ := h _ (List.mem_cons_self _ _)
    simp only [applyRules, List.foldl_cons, replaceAll_nil]
    exact ih (fun r hr => h r (List.mem_cons_of_mem _ hr))

theorem applyRules_cons_of_ne (rs : List (GoString × GoString))
    (h : ∀ r ∈ rs, GoodRule r) (c : Nat) (hc : c ≠ 0xE2) :
    ∀ t, applyRules rs (c :: t) = c :: applyRules rs t := by
  induction rs with
  | nil => intro t; rfl
  | cons r rs ih =>
    intro t
    obtain ⟨x, n, ns, rfl, _, _⟩ := h _ (List.mem_cons_self _ _)
    simp only [applyRules, List.foldl_cons, replaceAll_cons_of_ne _ _ _ _ _ _ hc]
    exact ih (fun r hr => h r (List.mem_cons_of_mem _ hr)) _

theorem applyRules_guarded (rs : List (GoString × GoString))
    (h : ∀ r ∈ rs, GoodRule r) :
    ∀ t, Guard t → applyRules rs (0xE2 :: t) = 0xE2 :: applyRules rs t := by
  induction rs with
  | nil => intro t _; rfl
  | cons r rs ih =>
    intro t hg
    have hr := h _ (List.mem_cons_self _ _)
    have hg' := guard_replaceAll r t hr hg
    obtain ⟨x, n, ns, rfl, hx, _⟩ := hr
    simp only [applyRules, List.foldl_cons, replaceAll_guarded _ _ _ hx hg]
    exact ih (fun r hr => h r (List.mem_cons_of_mem _ hr)) _ hg'

theorem removeNul_cons_of_ne (c : Nat) (t : GoString) (hc : c ≠ 0) :
    replaceAll (c :: t) nul [] = c :: replaceAll t nul [] := by
  apply replaceAll_cons_of_no_match
  simp [nul, List.isPrefixOf, Ne.symm hc]

theorem removeNul_cons_zero (t : GoString) :
    replaceAll (0 :: t) nul [] = replaceAll t nul [] := by
  simp [replaceAll, replaceAllAux, nul]

theorem cleanString_nil : cleanString [] = [] := by
  rw [cleanString_eq_applyRules, applyRules_nil _ goodRule_punctuationRules, replaceAll_nil]

/-- A NUL byte is dropped. -/
theorem cleanString_cons_zero (t : GoString) : cleanString (0 :: t) = cleanString t := by
  rw [cleanString_eq_applyRules, cleanString_eq_applyRules,
    applyRules_cons_of_ne _ goodRule_punctuationRules 0 (by decide), removeNul_cons_zero]

/-- A byte other than NUL and `E2` is copied. -/
theorem cleanString_cons_of_ne (c : Nat) (t : GoString) (h0 : c ≠ 0) (hc : c ≠ 0xE2) :
    cleanString (c :: t) = c :: cleanString t := by
  rw [cleanString_eq_applyRules, cleanString_eq_applyRules,
    applyRules_cons_of_ne _ goodRule_punctuationRules c hc, removeNul_cons_of_ne _ _ h0]

/-- An `E2` byte that starts no mapped character is copied. -/
theorem cleanString_guarded (t : GoString) (hg : Guard t) :
    cleanString (0xE2 :: t) = 0xE2 :: cleanString t := by
  rw [cleanString_eq_applyRules, cleanString_eq_applyRules,
    applyRules_guarded _ goodRule_punctuationRules t hg, removeNul_cons_of_ne _ _ (by decide)]

/-- A mapped three-byte character is replaced by its substitution. -/
theorem cleanString_mapped (x : Nat) (t : GoString) (hx : isMappedThird x) :
    cleanString (0xE2 :: 0x80 :: x :: t) = substChar [0xE2, 0x80, x] ++ cleanString t := by
  simp only [isMappedThird, List.mem_cons, List.mem_singleton, List.not_mem_nil,
    or_false] at hx
  rcases hx with h | h | h | h | h | h | h <;> subst h <;>
    simp [cleanString, replaceAll, replaceAllAux, substChar, leftDoubleQuote, rightDoubleQuote,
      leftSingleQuote, rightSingleQuote, enDash, emDash, ellipsis, nul, ascii,
      List.isPrefixOf]

theorem isCont_iff (b : Nat) : isCont b = true ↔ 0x80 ≤ b ∧ b ≤ 0xBF := by
  simp [isCont]

theorem secondByteOK_isCont (b0 b1 : Nat) (h : secondByteOK b0 b1 = true) :
    isCont b1 = true := by
  unfold secondByteOK at h
  split_ifs at h <;> simp_all [isCont] <;> omega

theorem guard_of_not_wellFormed (b1 b2 : Nat) (t : GoString)
    (h : ¬ (secondByteOK 0xE2 b1 = true ∧ isCont b2 = true)) : Guard (b1 :: b2 :: t) := by
  intro y t' e hy
  injection e with e1 e2
  injection e2 with e3 _
  have := isMappedThird_ge hy
  apply h
  subst e1 e3
  constructor
  · simp [secondByteOK, isCont]
  · rw [isCont_iff]
    omega

/-- The shape of the first character of a non-empty string. -/
theorem charWidth_cases (c : Nat) (rest : GoString) :
    (charWidth (c :: rest) = 1 ∧ (c = 0xE2 → Guard rest)) ∨
    (∃ b1 t, rest = b1 :: t ∧ charWidth (c :: rest) = 2 ∧ 0xC2 ≤ c ∧ c ≤ 0xDF ∧
      isCont b1 = true) ∨
    (∃ b1 b2 t, rest = b1 :: b2 :: t ∧ charWidth (c :: rest) = 3 ∧ 0xE0 ≤ c ∧ c ≤ 0xEF ∧
      isCont b1 = true ∧ isCont b2 = true) ∨
    (∃ b1 b2 b3 t, rest = b1 :: b2 :: b3 :: t ∧ charWidth (c :: rest) = 4 ∧ 0xF0 ≤ c ∧
      c ≤ 0xF4 ∧ isCont b1 = true ∧ isCont b2 = true ∧ isCont b3 = true) := by
  by_cases h2 : 0xC2 ≤ c ∧ c ≤ 0xDF
  · have hc : c ≠ 0xE2 := by omega
    cases rest with
    | nil => left; exact ⟨by simp [charWidth, h2], fun h => absurd h hc⟩
    | cons b1 t =>
      by_cases hb : isCont b1 = true
      · right; left
        exact ⟨b1, t, rfl, by simp [charWidth, h2, hb], h2.1, h2.2, hb⟩
      · left
        exact ⟨by simp [charWidth, h2, hb], fun h => absurd h hc⟩
  · by_cases h3 : 0xE0 ≤ c ∧ c ≤ 0xEF
    · rcases rest with _ | ⟨b1, _ | ⟨b2, t⟩⟩
      · left; exact ⟨by simp [charWidth, h2, h3], fun _ => guard_nil⟩
      · left
        refine ⟨by simp [charWidth, h2, h3], fun _ => ?_⟩
        intro y t' e
        cases e
      · by_cases hb : secondByteOK c b1 = true ∧ isCont b2 = true
        · right; right; left
          exact ⟨b1, b2, t, rfl, by simp [charWidth, h2, h3, hb], h3.1, h3.2,
            secondByteOK_isCont _ _ hb.1, hb.2⟩
        · left
          refine ⟨by simp [charWidth, h2, h3, hb], fun hc => ?_⟩
          subst hc
          exact guard_of_not_wellFormed _ _ _ hb
    · have hc : c ≠ 0xE2 := by omega
      by_cases h4 : 0xF0 ≤ c ∧ c ≤ 0xF4
      · rcases rest with _ | ⟨b1, _ | ⟨b2, _ | ⟨b3, t⟩⟩⟩
        · left; exact ⟨by simp [charWidth, h2, h3, h4], fun h => absurd h hc⟩
        · left; exact ⟨by simp [charWidth, h2, h3, h4], fun h => absurd h hc⟩
        · left; exact ⟨by simp [charWidth, h2, h3, h4], fun h => absurd h hc⟩
        · by_cases hb : secondByteOK c b1 = true ∧ isCont b2 = true ∧ isCont b3 = true
          · right; right; right
            exact ⟨b1, b2, b3, t, rfl, by simp [charWidth, h2, h3, h4, hb], h4.1, h4.2,
              secondByteOK_isCont _ _ hb.1, hb.2.1, hb.2.2⟩
          · left
            exact ⟨by simp [charWidth, h2, h3, h4, hb], fun h => absurd h hc⟩
      · left
        exact ⟨by simp [charWidth, h2, h3, h4], fun h => absurd h hc⟩

theorem substChar_single (c : Nat) (hc : c ≠ 0) : substChar [c] = [c] := by
  simp [substChar, leftDoubleQuote, rightDoubleQuote, leftSingleQuote, rightSingleQuote,
    enDash, emDash, ellipsis, nul, hc]

theorem substChar_zero : substChar [0] = [] := by
  simp [substChar, leftDoubleQuote, rightDoubleQuote, leftSingleQuote, rightSingleQuote,
    enDash, emDash, ellipsis, nul]

theorem substChar_two (c b1 : Nat) : substChar [c, b1] = [c, b1] := by
  simp [substChar, leftDoubleQuote, rightDoubleQuote, leftSingleQuote, rightSingleQuote,
    enDash, emDash, ellipsis, nul]

theorem substChar_four (c b1 b2 b3 : Nat) : substChar [c, b1, b2, b3] = [c, b1, b2, b3] := by
  simp [substChar, leftDoubleQuote, rightDoubleQuote, leftSingleQuote, rightSingleQuote,
    enDash, emDash, ellipsis, nul]

theorem substChar_three_unmapped (c b1 b2 : Nat)
    (h : ¬ (c = 0xE2 ∧ b1 = 0x80 ∧ isMappedThird b2)) :
    substChar [c, b1, b2] = [c, b1, b2] := by
  have h' : ∀ x, isMappedThird x → ¬ (c = 0xE2 ∧ b1 = 0x80 ∧ b2 = x) := by
    rintro x hx ⟨h1, h2, h3⟩
    exact h ⟨h1, h2, h3 ▸ hx⟩
  have e1 := h' 0x9C (by simp [isMappedThird])
  have e2 := h' 0x9D (by simp [isMappedThird])
  have e3 := h' 0x98 (by simp [isMappedThird])
  have e4 := h' 0x99 (by simp [isMappedThird])
  have e5 := h' 0x93 (by simp [isMappedThird])
  have e6 := h' 0x94 (by simp [isMappedThird])
  have e7 := h' 0xA6 (by simp [isMappedThird])
  simp [substChar, leftDoubleQuote, rightDoubleQuote, leftSingleQuote, rightSingleQuote,
    enDash, emDash, ellipsis, nul, e1, e2, e3, e4, e5, e6, e7]

theorem isCont_ne (b : Nat) (h : isCont b = true) : b ≠ 0 ∧ b ≠ 0xE2 := by
  rw [isCont_iff] at h
  omega

theorem guard_of_unmapped (b1 b2 : Nat) (t : GoString)
    (h : ¬ ((0xE2 : Nat) = 0xE2 ∧ b1 = 0x80 ∧ isMappedThird b2)) : Guard (b1 :: b2 :: t) := by
  intro y t' e hy
  injection e with e1 e2
  injection e2 with e3 _
  exact h ⟨rfl, e1, e3 ▸ hy⟩

/-- The sanitizer treats the first character of a string on its own: the result is the
substitution of that character followed by the sanitized remainder. -/
theorem cleanString_first_char (c : Nat) (rest : GoString) :
    cleanString (c :: rest) =
      substChar ((c :: rest).take (charWidth (c :: rest)))
        ++ cleanString ((c :: rest).drop (charWidth (c :: rest))) := by
  rcases charWidth_cases c rest with ⟨hw, hg⟩ | ⟨b1, t, rfl, hw, hlo, hhi, hb1⟩ |
    ⟨b1, b2, t, rfl, hw, hlo, hhi, hb1, hb2⟩ | ⟨b1, b2, b3, t, rfl, hw, hlo, hhi, hb1, hb2, hb3⟩
  · rw [hw]
    simp only [List.take_succ_cons, List.take_zero, List.drop_succ_cons, List.drop_zero]
    by_cases h0 : c = 0
    · subst h0
      rw [substChar_zero, cleanString_cons_zero]
      rfl
    · rw [substChar_single _ h0]
      by_cases hc : c = 0xE2
      · subst hc
        rw [cleanString_guarded _ (hg rfl)]
        rfl
      · rw [cleanString_cons_of_ne _ _ h0 hc]
        rfl
  · rw [hw]
    simp only [List.take_succ_cons, List.take_zero, List.drop_succ_cons, List.drop_zero]
    rw [substChar_two, cleanString_cons_of_ne c _ (by omega) (by omega),
      cleanString_cons_of_ne b1 _ (isCont_ne _ hb1).1 (isCont_ne _ hb1).2]
    rfl
  · rw [hw]
    simp only [List.take_succ_cons, List.take_zero, List.drop_succ_cons, List.drop_zero]
    by_cases hm : c = 0xE2 ∧ b1 = 0x80 ∧ isMappedThird b2
    · obtain ⟨rfl, rfl, hx⟩ := hm
      exact cleanString_mapped _ _ hx
    · rw [substChar_three_unmapped _ _ _ hm]
      have hrest : cleanString (b1 :: b2 :: t) = b1 :: b2 :: cleanString t := by
        rw [cleanString_cons_of_ne b1 _ (isCont_ne _ hb1).1 (isCont_ne _ hb1).2,
          cleanString_cons_of_ne b2 _ (isCont_ne _ hb2).1 (isCont_ne _ hb2).2]
      by_cases hc : c = 0xE2
      · subst hc
        rw [cleanString_guarded _ (guard_of_unmapped _ _ _ hm), hrest]
        rfl
      · rw [cleanString_cons_of_ne c _ (by omega) hc, hrest]
        rfl
  · rw [hw]
    simp only [List.take_succ_cons, List.take_zero, List.drop_succ_cons, List.drop_zero]
    rw [substChar_four, cleanString_cons_of_ne c _ (by omega) (by omega),
      cleanString_cons_of_ne b1 _ (isCont_ne _ hb1).1 (isCont_ne _ hb1).2,
      cleanString_cons_of_ne b2 _ (isCont_ne _ hb2).1 (isCont_ne _ hb2).2,
      cleanString_cons_of_ne b3 _ (isCont_ne _ hb3).1 (isCont_ne _ hb3).2]
    rfl

theorem substCharsAux_skip : ∀ (k : Nat) (s : GoString),
    substCharsAux k s = substCharsAux 0 (s.drop k) := by
  intro k
  induction k with
  | zero => intro s; rfl
  | succ k ih =>
    intro s
    cases s with
    | nil => simp [substCharsAux]
    | cons c rest =>
      simp only [substCharsAux, List.drop_succ_cons]
      exact ih rest

theorem charWidth_pos (c : Nat) (rest : GoString) : 1 ≤ charWidth (c :: rest) := by
  rcases charWidth_cases c rest with ⟨hw, _⟩ | ⟨_, _, _, hw, _⟩ | ⟨_, _, _, _, hw, _⟩ |
    ⟨_, _, _, _, _, hw, _⟩ <;> omega

theorem drop_charWidth (c : Nat) (rest : GoString) :
    (c :: rest).drop (charWidth (c :: rest)) = rest.drop (charWidth (c :: rest) - 1) := by
  have h := charWidth_pos c rest
  obtain ⟨k, hk⟩ : ∃ k, charWidth (c :: rest) = k + 1 := ⟨charWidth (c :: rest) - 1, by omega⟩
  rw [hk]
  simp

theorem substChars_cons (c : Nat) (rest : GoString) :
    substChars (c :: rest) =
      substChar ((c :: rest).take (charWidth (c :: rest)))
        ++ substChars ((c :: rest).drop (charWidth (c :: rest))) := by
  rw [drop_charWidth]
  simp only [substChars, substCharsAux]
  rw [substCharsAux_skip]

theorem cleanString_eq_substChars_of_length : ∀ (n : Nat) (s : GoString), s.length ≤ n →
    cleanString s = substChars s := by
  intro n
  induction n with
  | zero =>
    intro s hs
    have : s = [] := List.length_eq_zero.mp (by omega)
    subst this
    rw [cleanString_nil]
    rfl
  | succ n ih =>
    intro s hs
    cases s with
    | nil => rw [cleanString_nil]; rfl
    | cons c rest =>
      rw [cleanString_first_char, substChars_cons, ih]
      rw [drop_charWidth, List.length_drop]
      simp only [List.length_cons] at hs
      omega

theorem cleanString_of_no_mapped (s : GoString) (h : ∀ p ∈ mappedChars, ¬ p <:+: s) :
    cleanString s = s := by
  induction s with
  | nil => exact cleanString_nil
  | cons c rest ih =>
    have hrest : ∀ p ∈ mappedChars, ¬ p <:+: rest :=
      fun p hp hin => h p hp (List.infix_cons hin)
    have h0 : c ≠ 0 := by
      intro hc
      subst hc
      exact h nul (by simp [mappedChars]) ⟨[], rest, by simp [nul]⟩
    by_cases hc : c = 0xE2
    · subst hc
      have hg : Guard rest := by
        intro y t' e hy
        subst e
        have hmem : [0xE2, 0x80, y] ∈ mappedChars := by
          simp only [isMappedThird, List.mem_cons, List.mem_singleton, List.not_mem_nil,
            or_false] at hy
          rcases hy with h | h | h | h | h | h | h <;> subst h <;>
            simp [mappedChars, leftDoubleQuote, rightDoubleQuote, leftSingleQuote,
              rightSingleQuote, enDash, emDash, ellipsis]
        exact h _ hmem ⟨[], t', by simp⟩
      rw [cleanString_guarded _ hg, ih hrest]
    · rw [cleanString_cons_of_ne _ _ h0 hc, ih hrest]

/-- C2: `cleanString` returns the input with every character, in order, replaced by its
substitution (the two double quotation marks by `"`, the two single quotation marks by `'`,
the two dashes by `-`, the ellipsis by `...`, NUL by nothing, every other character by
itself); a string in which none of the eight mapped characters occurs is returned
unchanged. -/
theorem cleanString_eq_substChars (s : GoString) :
    cleanString s = substChars s ∧
    ((∀ p ∈ mappedChars, ¬ p <:+: s) → cleanString s = s) :=
  ⟨cleanString_eq_substChars_of_length s.length s (Nat.le_refl _),
   cleanString_of_no_mapped s⟩

theorem validUTF8Aux_skip : ∀ (k : Nat) (s : GoString),
    validUTF8Aux k s = validUTF8Aux 0 (s.drop k) := by
  intro k
  induction k with
  | zero => intro s; rfl
  | succ k ih =>
    intro s
    cases s with
    | nil => simp [validUTF8Aux]
    | cons c rest =>
      simp only [validUTF8Aux, List.drop_succ_cons]
      exact ih rest

theorem validUTF8_cons (c : Nat) (rest : GoString) (h : validUTF8 (c :: rest) = true) :
    (c < 0x80 ∨ 2 ≤ charWidth (c :: rest)) ∧
    validUTF8 ((c :: rest).drop (charWidth (c :: rest))) = true := by
  rw [drop_charWidth]
  simp only [validUTF8, validUTF8Aux, Bool.and_eq_true, Bool.or_eq_true,
    decide_eq_true_eq] at h
  refine ⟨h.1, ?_⟩
  rw [validUTF8, ← validUTF8Aux_skip]
  exact h.2

theorem cleanString_substChar_mapped (x : Nat) (t : GoString) (hx : isMappedThird x) :
    cleanString (substChar [0xE2, 0x80, x] ++ t) = substChar [0xE2, 0x80, x] ++ cleanString t := by
  simp only [isMappedThird, List.mem_cons, List.mem_singleton, List.not_mem_nil,
    or_false] at hx
  rcases hx with h | h | h | h | h | h | h <;> subst h <;>
    simp [substChar, leftDoubleQuote, rightDoubleQuote, leftSingleQuote, rightSingleQuote,
      enDash, emDash, ellipsis, nul, ascii, cleanString_cons_of_ne]

/-- The substitution of a well-formed first character is left as it is by a second run of
the sanitizer, whatever follows it. -/
theorem cleanString_substChar_append (c : Nat) (rest : GoString)
    (hv : c < 0x80 ∨ 2 ≤ charWidth (c :: rest)) (t : GoString) :
    cleanString (substChar ((c :: rest).take (charWidth (c :: rest))) ++ t) =
      substChar ((c :: rest).take (charWidth (c :: rest))) ++ cleanString t := by
  rcases charWidth_cases c rest with ⟨hw, _⟩ | ⟨b1, r, rfl, hw, hlo, hhi, hb1⟩ |
    ⟨b1, b2, r, rfl, hw, hlo, hhi, hb1, hb2⟩ | ⟨b1, b2, b3, r, rfl, hw, hlo, hhi, hb1, hb2, hb3⟩
  · have hc : c < 0x80 := by omega
    rw [hw]
    simp only [List.take_succ_cons, List.take_zero]
    by_cases h0 : c = 0
    · subst h0
      rw [substChar_zero]
      rfl
    · rw [substChar_single _ h0]
      exact cleanString_cons_of_ne c _ h0 (by omega)
  · rw [hw]
    simp only [List.take_succ_cons, List.take_zero]
    rw [substChar_two]
    simp only [List.cons_append, List.nil_append]
    rw [cleanString_cons_of_ne c _ (by omega) (by omega),
      cleanString_cons_of_ne b1 _ (isCont_ne _ hb1).1 (isCont_ne _ hb1).2]
  · rw [hw]
    simp only [List.take_succ_cons, List.take_zero]
    by_cases hm : c = 0xE2 ∧ b1 = 0x80 ∧ isMappedThird b2
    · obtain ⟨rfl, rfl, hx⟩ := hm
      exact cleanString_substChar_mapped _ _ hx
    · rw [substChar_three_unmapped _ _ _ hm]
      simp only [List.cons_append, List.nil_append]
      have hrest : cleanString (b1 :: b2 :: t) = b1 :: b2 :: cleanString t := by
        rw [cleanString_cons_of_ne b1 _ (isCont_ne _ hb1).1 (isCont_ne _ hb1).2,
          cleanString_cons_of_ne b2 _ (isCont_ne _ hb2).1 (isCont_ne _ hb2).2]
      by_cases hc : c = 0xE2
      · subst hc
        rw [cleanString_guarded _ (guard_of_unmapped _ _ _ hm), hrest]
      · rw [cleanString_cons_of_ne c _ (by omega) hc, hrest]
  · rw [hw]
    simp only [List.take_succ_cons, List.take_zero]
    rw [substChar_four]
    simp only [List.cons_append, List.nil_append]
    rw [cleanString_cons_of_ne c _ (by omega) (by omega),
      cleanString_cons_of_ne b1 _ (isCont_ne _ hb1).1 (isCont_ne _ hb1).2,
      cleanString_cons_of_ne b2 _ (isCont_ne _ hb2).1 (isCont_ne _ hb2).2,
      cleanString_cons_of_ne b3 _ (isCont_ne _ hb3).1 (isCont_ne _ hb3).2]

theorem cleanString_idempotent_of_length : ∀ (n : Nat) (s : GoString), s.length ≤ n →
    validUTF8 s = true → cleanString (cleanString s) = cleanString s := by
  intro n
  induction n with
  | zero =>
    intro s hs _
    have : s = [] := List.length_eq_zero.mp (by omega)
    subst this
    rw [cleanString_nil, cleanString_nil]
  | succ n ih =>
    intro s hs hv
    cases s with
    | nil => rw [cleanString_nil, cleanString_nil]
    | cons c rest =>
      obtain ⟨hhead, htail⟩ := validUTF8_cons c rest hv
      have hlen : ((c :: rest).drop (charWidth (c :: rest))).length ≤ n := by
        rw [drop_charWidth, List.length_drop]
        simp only [List.length_cons] at hs
        omega
      rw [cleanString_first_char, cleanString_substChar_append c rest hhead, ih _ hlen htail]

/-- C1 fails as stated: on the bytes `E2 00 80 9C` no pass finds its three-byte pattern,
the last pass removes the NUL and leaves `E2 80 9C`, the encoding of U+201C, which a second
run replaces by `"`. -/
theorem cleanString_not_idempotent :
    cleanString brokenQuote = leftDoubleQuote ∧
    cleanString (cleanString brokenQuote) = ascii "\"" ∧
    cleanString (cleanString brokenQuote) ≠ cleanString brokenQuote := by
  decide

/-- C1 as amended: on every well-formed UTF-8 string a second run of `cleanString` changes
nothing. -/
theorem cleanString_idempotent (s : GoString) (h : validUTF8 s = true) :
    cleanString (cleanString s) = cleanString s :=
  cleanString_idempotent_of_length s.length s (Nat.le_refl _) h

/-- C1 as amended, at a text that holds curly quotes, an en dash, an ellipsis and a NUL. -/
theorem cleanString_idempotent_witness :
    validUTF8 fancyText = true ∧
    cleanString fancyText = ascii "\"Hi\" - wait..." ∧
    cleanString (cleanString fancyText) = cleanString fancyText :=
  ⟨by decide, by decide, cleanString_idempotent fancyText (by decide)⟩

/-- C2 at two texts: one holding mapped characters, one holding none of them. -/
theorem cleanString_eq_substChars_witness :
    cleanString fancyText = substChars fancyText ∧
    substChars fancyText = ascii "\"Hi\" - wait..." ∧
    cleanString plainText = plainText :=
  ⟨(cleanString_eq_substChars fancyText).1, by decide,
   (cleanString_eq_substChars plainText).2 (by decide)⟩

/-! ## Grouping and filtering -/

theorem rosterRowArtists_eq_filter (artists : List EventArtist) :
    rosterRowArtists artists = artists.filter (fun a => decide (a.Status ≠ confirmedOnly)) := by
  induction artists with
  | nil => rfl
  | cons a rest ih =>
    by_cases h : a.Status = confirmedOnly <;> simp [rosterRowArtists, h, ih]

theorem ledgerRowArtists_eq_roster (artists : List EventArtist) :
    ledgerRowArtists artists = rosterRowArtists artists := by
  induction artists with
  | nil => rfl
  | cons a rest ih =>
    by_cases h : a.Status = confirmedOnly <;> simp [ledgerRowArtists, rosterRowArtists, h, ih]

theorem detailPageArtists_eq_roster (artists : List EventArtist) :
    detailPageArtists artists = rosterRowArtists artists := by
  induction artists with
  | nil => rfl
  | cons a rest ih =>
    by_cases h : a.Status = confirmedOnly <;> simp [detailPageArtists, rosterRowArtists, h, ih]

/-- The grouping loop, from any three slices: each slice grows by a filter of the input. -/
theorem foldl_groupArtist (artists : List EventArtist) (g : BioGroups) :
    artists.foldl groupArtist g =
      { round1Artists := g.round1Artists ++
          artists.filter (fun a => decide (a.Status ≠ confirmedOnly ∧ a.RoundNumber = 1))
        round2Artists := g.round2Artists ++
          artists.filter (fun a => decide (a.Status ≠ confirmedOnly ∧ a.RoundNumber = 2))
        unmatchedArtists := g.unmatchedArtists ++
          artists.filter (fun a => decide (a.Status = confirmedOnly)) } := by
  induction artists generalizing g with
  | nil => simp
  | cons a rest ih =>
    rw [List.foldl_cons, ih]
    by_cases h : a.Status = confirmedOnly
    · simp [groupArtist, h]
    · by_cases h1 : a.RoundNumber = 1
      · simp [groupArtist, h, h1]
      · by_cases h2 : a.RoundNumber = 2
        · simp [groupArtist, h, h1, h2]
        · simp [groupArtist, h, h1, h2]

theorem round1Artists_eq (artists : List EventArtist) :
    (groupArtists artists).round1Artists =
      artists.filter (fun a => decide (a.Status ≠ confirmedOnly ∧ a.RoundNumber = 1)) := by
  simp [groupArtists, foldl_groupArtist]

theorem round2Artists_eq (artists : List EventArtist) :
    (groupArtists artists).round2Artists =
      artists.filter (fun a => decide (a.Status ≠ confirmedOnly ∧ a.RoundNumber = 2)) := by
  simp [groupArtists, foldl_groupArtist]

theorem unmatchedArtists_eq (artists : List EventArtist) :
    (groupArtists artists).unmatchedArtists =
      artists.filter (fun a => decide (a.Status = confirmedOnly)) := by
  simp [groupArtists, foldl_groupArtist]

theorem count_filter_of_neg (p : EventArtist → Bool) (l : List EventArtist) (a : EventArtist)
    (h : p a = false) : (l.filter p).count a = 0 := by
  rw [List.count_eq_zero]
  intro hm
  have := (List.mem_filter.mp hm).2
  simp [h] at this

theorem count_filter_of_pos (p : EventArtist → Bool) (l : List EventArtist) (a : EventArtist)
    (h : p a = true) : (l.filter p).count a = l.count a :=
  List.count_filter h

/-- C3: the roster (the artists given roster rows, who are also the artists given ledger rows
and detail pages) and the confirmed-only set (the Additional bio group) are disjoint, and
together they are a rearrangement of the input list, so that every occurrence of an artist
in the input is in exactly one of the two. -/
theorem roster_confirmedOnly_partition (artists : List EventArtist) :
    (rosterRowArtists artists ++ (groupArtists artists).unmatchedArtists).Perm artists ∧
    ledgerRowArtists artists = rosterRowArtists artists ∧
    detailPageArtists artists = rosterRowArtists artists ∧
    (∀ a, a ∈ rosterRowArtists artists → a ∉ (groupArtists artists).unmatchedArtists) ∧
    (∀ a, (rosterRowArtists artists).count a + (groupArtists artists).unmatchedArtists.count a
      = artists.count a) := by
  have hperm : (rosterRowArtists artists ++ (groupArtists artists).unmatchedArtists).Perm
      artists := by
    rw [rosterRowArtists_eq_filter, unmatchedArtists_eq]
    have h := List.filter_append_perm (fun a : EventArtist => decide (a.Status = confirmedOnly))
      artists
    refine List.Perm.trans ?_ h
    refine List.Perm.trans List.perm_append_comm ?_
    refine List.Perm.append_left _ ?_
    apply List.Perm.of_eq
    apply List.filter_congr
    intro a _
    simp
  refine ⟨hperm, ledgerRowArtists_eq_roster artists, detailPageArtists_eq_roster artists, ?_, ?_⟩
  · intro a ha hu
    rw [rosterRowArtists_eq_filter] at ha
    rw [unmatchedArtists_eq] at hu
    have h1 := (List.mem_filter.mp ha).2
    have h2 := (List.mem_filter.mp hu).2
    simp at h1 h2
    exact h1 h2
  · intro a
    rw [← List.count_append]
    exact hperm.count_eq a

/-- C4: the three bio groups together hold an artist no more often than the input list does
(each list position is placed at most once), no artist is in two of the groups, and an artist
whose status is confirmed-only is in the Additional group as often as in the input, whatever
its round number. -/
theorem bioGroups_at_most_one (artists : List EventArtist) (a : EventArtist) :
    (groupArtists artists).round1Artists.count a + (groupArtists artists).round2Artists.count a
        + (groupArtists artists).unmatchedArtists.count a ≤ artists.count a ∧
    ¬ (a ∈ (groupArtists artists).round1Artists ∧ a ∈ (groupArtists artists).round2Artists) ∧
    ¬ (a ∈ (groupArtists artists).round1Artists ∧ a ∈ (groupArtists artists).unmatchedArtists) ∧
    ¬ (a ∈ (groupArtists artists).round2Artists ∧ a ∈ (groupArtists artists).unmatchedArtists) ∧
    (a.Status = confirmedOnly →
      (groupArtists artists).unmatchedArtists.count a = artists.count a ∧
      (a ∈ artists → a ∈ (groupArtists artists).unmatchedArtists)) := by
  rw [round1Artists_eq, round2Artists_eq, unmatchedArtists_eq]
  refine ⟨?_, ?_, ?_, ?_, ?_⟩
  · by_cases h : a.Status = confirmedOnly
    · rw [count_filter_of_neg _ _ _ (by simp [h]), count_filter_of_neg _ _ _ (by simp [h]),
        count_filter_of_pos _ _ _ (by simp [h])]
      omega
    · by_cases h1 : a.RoundNumber = 1
      · rw [count_filter_of_pos _ _ _ (by simp [h, h1]),
          count_filter_of_neg _ _ _ (by simp [h, h1]), count_filter_of_neg _ _ _ (by simp [h])]
        omega
      · have hu : (artists.filter (fun a => decide (a.Status = confirmedOnly))).count a = 0 :=
          count_filter_of_neg _ _ _ (by simp [h])
        rw [count_filter_of_neg _ _ _ (by simp [h, h1]), hu]
        have hs : (artists.filter
            (fun a => decide (a.Status ≠ confirmedOnly ∧ a.RoundNumber = 2))).count a
            ≤ artists.count a := (List.filter_sublist artists).count_le a
        omega
  · rintro ⟨h1, h2⟩
    have e1 := (List.mem_filter.mp h1).2
    have e2 := (List.mem_filter.mp h2).2
    simp at e1 e2
    omega
  · rintro ⟨h1, h2⟩
    have e1 := (List.mem_filter.mp h1).2
    have e2 := (List.mem_filter.mp h2).2
    simp at e1 e2
    exact e1.1 e2
  · rintro ⟨h1, h2⟩
    have e1 := (List.mem_filter.mp h1).2
    have e2 := (List.mem_filter.mp h2).2
    simp at e1 e2
    exact e1.1 e2
  · intro h
    refine ⟨count_filter_of_pos _ _ _ (by simp [h]), fun hm => ?_⟩
    exact List.mem_filter.mpr ⟨hm, by simp [h]⟩

/-- C4 at the scenario of the specification: John Q. Public, confirmed only and of round 2,
is in the Additional group. -/
theorem bioGroups_at_most_one_witness :
    (groupArtists [janeDoe, johnPublic]).unmatchedArtists.count johnPublic
      = [janeDoe, johnPublic].count johnPublic ∧
    johnPublic ∈ (groupArtists [janeDoe, johnPublic]).unmatchedArtists :=
  ⟨((bioGroups_at_most_one [janeDoe, johnPublic] johnPublic).2.2.2.2 (by decide)).1,
   ((bioGroups_at_most_one [janeDoe, johnPublic] johnPublic).2.2.2.2 (by decide)).2 (by decide)⟩

/-- C5 fails as stated: an artist of round 3 who is not confirmed-only is in the input and
in none of the three bio groups. -/
theorem bioGroups_exactly_one_fails :
    strayArtist ∈ [strayArtist] ∧
    strayArtist ∉ (groupArtists [strayArtist]).round1Artists ∧
    strayArtist ∉ (groupArtists [strayArtist]).round2Artists ∧
    strayArtist ∉ (groupArtists [strayArtist]).unmatchedArtists := by
  decide

/-- C5 as amended: an artist whose status is confirmed-only, or whose round number is 1 or
2, is placed in exactly one of the three bio groups: the groups together hold it as often as
the input does, and it is a member of one group and of no other. -/
theorem bioGroups_exactly_one (artists : List EventArtist) (a : EventArtist)
    (h : a.Status = confirmedOnly ∨ a.RoundNumber = 1 ∨ a.RoundNumber = 2) :
    (groupArtists artists).round1Artists.count a + (groupArtists artists).round2Artists.count a
        + (groupArtists artists).unmatchedArtists.count a = artists.count a ∧
    (a ∈ artists →
      (a ∈ (groupArtists artists).round1Artists ∧ a ∉ (groupArtists artists).round2Artists ∧
        a ∉ (groupArtists artists).unmatchedArtists) ∨
      (a ∉ (groupArtists artists).round1Artists ∧ a ∈ (groupArtists artists).round2Artists ∧
        a ∉ (groupArtists artists).unmatchedArtists) ∨
      (a ∉ (groupArtists artists).round1Artists ∧ a ∉ (groupArtists artists).round2Artists ∧
        a ∈ (groupArtists artists).unmatchedArtists)) := by
  rw [round1Artists_eq, round2Artists_eq, unmatchedArtists_eq]
  by_cases hc : a.Status = confirmedOnly
  · refine ⟨?_, fun hm => Or.inr (Or.inr ?_)⟩
    · rw [count_filter_of_neg _ _ _ (by simp [hc]), count_filter_of_neg _ _ _ (by simp [hc]),
        count_filter_of_pos _ _ _ (by simp [hc])]
      omega
    · simp [List.mem_filter, hc, hm]
  · by_cases h1 : a.RoundNumber = 1
    · refine ⟨?_, fun hm => Or.inl ?_⟩
      · rw [count_filter_of_pos _ _ _ (by simp [hc, h1]),
          count_filter_of_neg _ _ _ (by simp [hc, h1]),
          count_filter_of_neg _ _ _ (by simp [hc])]
        omega
      · simp [List.mem_filter, hc, hm, h1]
    · have h2 : a.RoundNumber = 2 := by
        rcases h with h | h | h
        · exact absurd h hc
        · exact absurd h h1
        · exact h
      refine ⟨?_, fun hm => Or.inr (Or.inl ?_)⟩
      · rw [count_filter_of_neg _ _ _ (by simp [hc, h1]),
          count_filter_of_pos _ _ _ (by simp [hc, h2]),
          count_filter_of_neg _ _ _ (by simp [hc])]
        omega
      · simp [List.mem_filter, hc, hm, h2]

/-- C5 as amended, at the scenario of the specification: Jane Doe, of round 1. -/
theorem bioGroups_exactly_one_witness :
    (groupArtists [janeDoe, johnPublic]).round1Artists.count janeDoe
        + (groupArtists [janeDoe, johnPublic]).round2Artists.count janeDoe
        + (groupArtists [janeDoe, johnPublic]).unmatchedArtists.count janeDoe
      = [janeDoe, johnPublic].count janeDoe :=
  (bioGroups_exactly_one [janeDoe, johnPublic] janeDoe (Or.inr (Or.inl (by decide)))).1

/-! ## Display name -/

/-- C7 fails as stated: with the four name fields empty the resolved name is one space,
the separator `Sprintf("%s %s", "", "")` writes, and not the empty string. -/
theorem resolveName_all_empty_not_empty :
    namelessArtist.DisplayName = [] ∧ namelessArtist.ArtistName = [] ∧
    namelessArtist.FirstName = [] ∧ namelessArtist.LastName = [] ∧
    resolveName namelessArtist = [0x20] ∧ resolveName namelessArtist ≠ [] := by
  decide

/-- C7 as amended: the resolved name is the display name when that is non-empty, else the
artist name when that is non-empty, else the first name, one space and the last name; with
all four fields empty it is the one-space string. -/
theorem resolveName_fallback (artist : EventArtist) :
    (artist.DisplayName ≠ [] → resolveName artist = artist.DisplayName) ∧
    (artist.DisplayName = [] → artist.ArtistName ≠ [] →
      resolveName artist = artist.ArtistName) ∧
    (artist.DisplayName = [] → artist.ArtistName = [] →
      resolveName artist = artist.FirstName ++ ascii " " ++ artist.LastName) ∧
    (artist.DisplayName = [] → artist.ArtistName = [] → artist.FirstName = [] →
      artist.LastName = [] → resolveName artist = ascii " ") := by
  refine ⟨?_, ?_, ?_, ?_⟩
  · intro h
    simp [resolveName, h]
  · intro h h'
    simp [resolveName, h, h']
  · intro h h'
    simp [resolveName, h, h', sprintfNames]
  · intro h h' hf hl
    simp [resolveName, h, h', sprintfNames, hf, hl]

/-- C7 as amended, at Jane Doe (first and last name only) and at the nameless artist. -/
theorem resolveName_fallback_witness :
    resolveName janeDoe = ascii "Jane" ++ ascii " " ++ ascii "Doe" ∧
    resolveName janeDoe = ascii "Jane Doe" ∧
    resolveName namelessArtist = ascii " " :=
  ⟨(resolveName_fallback janeDoe).2.2.1 (by decide) (by decide), by decide,
   (resolveName_fallback namelessArtist).2.2.2 (by decide) (by decide) (by decide) (by decide)⟩

/-- C8: when one of the four name fields is non-empty the resolved name is not the empty
string, and the order is fixed: the display name wins over the artist name, which wins over
the first and last name. -/
theorem resolveName_ne_empty (artist : EventArtist)
    (_h : artist.DisplayName ≠ [] ∨ artist.ArtistName ≠ [] ∨ artist.FirstName ≠ [] ∨
      artist.LastName ≠ []) :
    resolveName artist ≠ [] ∧
    (artist.DisplayName ≠ [] → resolveName artist = artist.DisplayName) ∧
    (artist.DisplayName = [] → artist.ArtistName ≠ [] →
      resolveName artist = artist.ArtistName) ∧
    (artist.DisplayName = [] → artist.ArtistName = [] →
      resolveName artist = sprintfNames artist.FirstName artist.LastName) := by
  refine ⟨?_, ?_, ?_, ?_⟩
  · by_cases hd : artist.DisplayName = []
    · by_cases ha : artist.ArtistName = []
      · simp [resolveName, hd, ha, sprintfNames, ascii]
      · simp [resolveName, hd, ha]
    · simp [resolveName, hd]
  · intro hd
    simp [resolveName, hd]
  · intro hd ha
    simp [resolveName, hd, ha]
  · intro hd ha
    simp [resolveName, hd, ha]

/-- C8 at an artist with a stage name and a legal name: the stage name is the resolved
name. -/
theorem resolveName_ne_empty_witness :
    resolveName stageNameArtist ≠ [] ∧ resolveName stageNameArtist = ascii "Picasso" :=
  ⟨(resolveName_ne_empty stageNameArtist (Or.inr (Or.inl (by decide)))).1,
   (resolveName_ne_empty stageNameArtist (Or.inr (Or.inl (by decide)))).2.2.1
     (by decide) (by decide)⟩

/-! ## Dynamic-fit name sizing -/

/-- The shrink loop, entered after `k` bodies at size `49 - 2 * k` with enough fuel for the
`15 - k` bodies that may remain, returns; it has then executed `j ≤ 15` bodies, the size is
`49 - 2 * j`, and the loop condition is false. -/
theorem shrinkLoop_spec (getStringWidth : Int → GoString → ℚ) (artistName : GoString)
    (fuel : Nat) : ∀ (st : FitState) (k : Nat), k ≤ 15 → 15 ≤ fuel + k →
      st.fontSize = 49 - 2 * (k : Int) → st.iterations = k →
      ∃ r : FitState, shrinkLoop getStringWidth artistName fuel st = some r ∧
        r.iterations ≤ 15 ∧ k ≤ r.iterations ∧ r.fontSize = 49 - 2 * (r.iterations : Int) ∧
        ¬ (r.nameWidth > availableWidth ∧ r.fontSize > 20) ∧
        (¬ (st.nameWidth > availableWidth ∧ st.fontSize > 20) → r = st) ∧
        ((st.nameWidth > availableWidth ∧ st.fontSize > 20) → k + 1 ≤ r.iterations) := by
  induction fuel with
  | zero =>
    intro st k hk hf hs hi
    have hk15 : k = 15 := by omega
    have hc : ¬ (st.nameWidth > availableWidth ∧ st.fontSize > 20) := by
      rintro ⟨_, h⟩
      omega
    refine ⟨st, ?_, ?_, ?_, ?_, hc, fun _ => rfl, fun h => absurd h hc⟩
    · simp only [shrinkLoop, if_neg hc]
    · omega
    · omega
    · rw [hi]; exact hs
  | succ fuel ih =>
    intro st k hk hf hs hi
    by_cases hc : st.nameWidth > availableWidth ∧ st.fontSize > 20
    · have hk14 : k + 1 ≤ 15 := by
        have := hc.2
        omega
      obtain ⟨r, hr, h15, hge, hsz, hend, _, _⟩ := ih
        { fontSize := st.fontSize - 2
          nameWidth := getStringWidth (st.fontSize - 2) artistName
          iterations := st.iterations + 1 } (k + 1) hk14 (by omega)
        (by simp only [hs]; push_cast; ring) (by simp only [hi])
      refine ⟨r, ?_, h15, by omega, hsz, hend, fun h => absurd hc h, fun _ => hge⟩
      simp only [shrinkLoop, if_pos hc]
      exact hr
    · refine ⟨st, ?_, by omega, by omega, by rw [hi]; exact hs, hc, fun _ => rfl,
        fun h => absurd h hc⟩
      simp only [shrinkLoop, if_neg hc]

/-- C9 fails as stated: for a name still too wide at 21pt the loop runs once more, since
21 > 20, and ends at 19pt, which is below 20 and is none of 49, 47, ..., 21, 20. -/
theorem fitName_below_floor :
    alwaysTooWide 49 (ascii "Ann") > availableWidth ∧
    fitName alwaysTooWide (ascii "Ann") 15
      = some { fontSize := 19, nameWidth := 1000, iterations := 15 } ∧
    (19 : Int) < 20 ∧
    (19 : Int) ∉ [49, 47, 45, 43, 41, 39, 37, 35, 33, 31, 29, 27, 25, 23, 21, 20] := by
  refine ⟨?_, ?_, by decide, by decide⟩
  · simp [alwaysTooWide, availableWidth]; norm_num
  · simp [fitName, shrinkLoop, alwaysTooWide, availableWidth]; norm_num

/-- C9 as amended: when the name is too wide at 49pt the loop ends, with enough fuel for
15 bodies, at a size that is one of 47, 45, ..., 21, 19; the size is never below 19, and it
is 19 unless the name fits at the final size. -/
theorem fitName_result_set (getStringWidth : Int → GoString → ℚ) (artistName : GoString)
    (fuel : Nat) (hfuel : 15 ≤ fuel) (hwide : getStringWidth 49 artistName > availableWidth) :
    ∃ r : FitState, fitName getStringWidth artistName fuel = some r ∧
      r.fontSize ∈ [47, 45, 43, 41, 39, 37, 35, 33, 31, 29, 27, 25, 23, 21, 19] ∧
      19 ≤ r.fontSize ∧
      (r.fontSize = 19 ∨ r.nameWidth ≤ availableWidth) := by
  obtain ⟨r, hr, h15, _, hsz, hend, _, hstep⟩ := shrinkLoop_spec getStringWidth artistName fuel
    { fontSize := 49, nameWidth := getStringWidth 49 artistName, iterations := 0 } 0
    (by omega) (by omega) (by simp) rfl
  have h1 : 1 ≤ r.iterations := by
    have := hstep ⟨hwide, (by decide : (49 : Int) > 20)⟩
    omega
  refine ⟨r, hr, ?_, by omega, ?_⟩
  · rw [hsz]
    generalize r.iterations = n at h1 h15 ⊢
    interval_cases n <;> simp
  · by_cases hw : r.nameWidth > availableWidth
    · left
      have : ¬ r.fontSize > 20 := fun h => hend ⟨hw, h⟩
      omega
    · right
      exact not_lt.mp hw

/-- C9 as amended, at a name that is too wide at every size. -/
theorem fitName_result_set_witness :
    ∃ r : FitState, fitName alwaysTooWide (ascii "Ann") 15 = some r ∧
      r.fontSize ∈ [47, 45, 43, 41, 39, 37, 35, 33, 31, 29, 27, 25, 23, 21, 19] ∧
      19 ≤ r.fontSize ∧
      (r.fontSize = 19 ∨ r.nameWidth ≤ availableWidth) :=
  fitName_result_set alwaysTooWide (ascii "Ann") 15 (by decide)
    (by simp [alwaysTooWide, availableWidth]; norm_num)

/-- C10: with fuel for 15 bodies the shrink loop returns, after at most 15 bodies, and
after none when the name already fits at 49pt (the size is then 49). -/
theorem fitName_terminates (getStringWidth : Int → GoString → ℚ) (artistName : GoString)
    (fuel : Nat) (hfuel : 15 ≤ fuel) :
    ∃ r : FitState, fitName getStringWidth artistName fuel = some r ∧
      r.iterations ≤ 15 ∧
      (getStringWidth 49 artistName ≤ availableWidth →
        r.iterations = 0 ∧ r.fontSize = 49) := by
  obtain ⟨r, hr, h15, _, _, _, hfit, _⟩ := shrinkLoop_spec getStringWidth artistName fuel
    { fontSize := 49, nameWidth := getStringWidth 49 artistName, iterations := 0 } 0
    (by omega) (by omega) (by simp) rfl
  refine ⟨r, hr, h15, fun hle => ?_⟩
  have : r = { fontSize := 49, nameWidth := getStringWidth 49 artistName, iterations := 0 } :=
    hfit (fun h => absurd h.1 (not_lt.mpr hle))
  rw [this]
  exact ⟨rfl, rfl⟩

/-- C10 at a name that fits at every size, with fuel 15. -/
theorem fitName_terminates_witness :
    ∃ r : FitState, fitName alwaysFits (ascii "Ann") 15 = some r ∧
      r.iterations ≤ 15 ∧
      (alwaysFits 49 (ascii "Ann") ≤ availableWidth → r.iterations = 0 ∧ r.fontSize = 49) :=
  fitName_terminates alwaysFits (ascii "Ann") 15 (by decide)

/-! ## The QR target and the event history -/

/-- C11: the URL the QR code encodes is the Instagram field itself when the field starts
with `http`; otherwise, for a non-empty field, `https://instagram.com/` followed by the
field without its leading `@` (one `@` is removed, a field without it is kept whole);
and for an empty field `https://artb.art/event/` followed by the event's EID. -/
theorem qrURL_policy (eventEID : GoString) (artist : EventArtist) :
    (ascii "http" <+: artist.Instagram → qrURL eventEID artist = artist.Instagram) ∧
    (¬ ascii "http" <+: artist.Instagram → artist.Instagram ≠ [] →
      (∀ rest, artist.Instagram = 0x40 :: rest →
        qrURL eventEID artist = ascii "https://instagram.com/" ++ rest) ∧
      (artist.Instagram.head? ≠ some 0x40 →
        qrURL eventEID artist = ascii "https://instagram.com/" ++ artist.Instagram)) ∧
    (artist.Instagram = [] → qrURL eventEID artist = ascii "https://artb.art/event/" ++ eventEID) := by
  refine ⟨?_, ?_, ?_⟩
  · intro h
    have hp : stringsHasPrefix artist.Instagram (ascii "http") = true :=
      List.isPrefixOf_iff_prefix.mpr h
    have hne : artist.Instagram ≠ [] := by
      intro he
      rw [he] at h
      have := List.prefix_nil.mp h
      simp [ascii] at this
    simp [qrURL, hne, hp]
  · intro h hne
    have hp : stringsHasPrefix artist.Instagram (ascii "http") = false := by
      rw [Bool.eq_false_iff]
      intro ht
      exact h (List.isPrefixOf_iff_prefix.mp ht)
    refine ⟨?_, ?_⟩
    · intro rest hr
      simp [qrURL, hne, hp]
      simp [stringsTrimPrefix, stringsHasPrefix, hr, ascii]
    · intro hh
      simp only [qrURL, hne, hp, ne_eq, not_false_eq_true, if_true, Bool.false_eq_true,
        if_false]
      congr 1
      cases hi : artist.Instagram with
      | nil => simp [stringsTrimPrefix, stringsHasPrefix, ascii]
      | cons c rest =>
        rw [hi] at hh
        have hc : c ≠ 0x40 := by
          intro e
          apply hh
          simp [e]
        simp [stringsTrimPrefix, stringsHasPrefix, ascii, List.isPrefixOf, Ne.symm hc]
  · intro h
    simp [qrURL, h]

/-- C11 at three artists: a full link, a handle with `@`, no Instagram field. -/
theorem qrURL_policy_witness :
    qrURL (ascii "AB2995") linkArtist = ascii "https://example.com/ann" ∧
    qrURL (ascii "AB2995") handleArtist = ascii "https://instagram.com/ann" ∧
    qrURL (ascii "AB2995") janeDoe = ascii "https://artb.art/event/AB2995" :=
  ⟨(qrURL_policy (ascii "AB2995") linkArtist).1 (by decide),
   ((qrURL_policy (ascii "AB2995") handleArtist).2.1 (by decide) (by decide)).1
     (ascii "ann") (by decide),
   (qrURL_policy (ascii "AB2995") janeDoe).2.2 (by decide)⟩

theorem historyTexts_from (historyLength : Nat) (history : List ArtistEvent) :
    ∀ i, i ≤ 20 →
      (historyTexts historyLength i history).map Prod.snd =
        (history.take (20 - i)).map historyLine
          ++ (if history.length > 20 - i then [moreEventsLine historyLength] else []) ∧
      (historyTexts historyLength i history).map Prod.fst =
        List.range' i (min history.length (20 - i + 1)) := by
  induction history with
  | nil => intro i _; simp [historyTexts]
  | cons event rest ih =>
    intro i hi
    by_cases h20 : i ≥ 20
    · have : i = 20 := by omega
      subst this
      simp [historyTexts, List.range']
    · obtain ⟨h1, h2⟩ := ih (i + 1) (by omega)
      have e1 : 20 - i = (20 - (i + 1)) + 1 := by omega
      simp only [historyTexts, h20, if_false, List.map_cons, h1, h2, List.length_cons]
      constructor
      · rw [e1, List.take_succ_cons, List.map_cons, List.cons_append]
        congr 2
        by_cases hl : rest.length > 20 - (i + 1)
        · rw [if_pos hl, if_pos (by omega)]
        · rw [if_neg hl, if_neg (by omega)]
      · have e2 : min (rest.length + 1) (20 - i + 1) = min rest.length (20 - (i + 1) + 1) + 1 := by
          omega
        rw [e2, List.range'_succ]

/-- C12: the lines of the event-history column are the first 20 events in order, each as
`<EventEID> R<Round>-E<EaselNumber>` with ` W` appended exactly for a winner, followed by
the one line `... and (n-20) more events` when there are `n > 20` events and by nothing
otherwise; the lines carry the indices 0, 1, 2, ... in order. -/
theorem historyTexts_spec (history : List ArtistEvent) :
    (historyTexts history.length 0 history).map Prod.snd =
      (history.take 20).map historyLine
        ++ (if history.length > 20 then
              [ascii "... and " ++ decimal (history.length - 20) ++ ascii " more events"]
            else []) ∧
    (historyTexts history.length 0 history).map Prod.fst =
      List.range (min history.length 21) ∧
    (∀ event : ArtistEvent, historyLine event =
      event.EventEID ++ ascii " R" ++ formatInt event.Round ++ ascii "-E"
        ++ formatInt event.EaselNumber ++ (if event.IsWinner = true then ascii " W" else [])) := by
  obtain ⟨h1, h2⟩ := historyTexts_from history.length history 0 (by omega)
  refine ⟨?_, ?_, fun _ => rfl⟩
  · rw [h1]
    congr 1
    by_cases hl : history.length > 20
    · rw [if_pos (by omega), if_pos hl]
      have e : ((history.length : Int) - 20) = ((history.length - 20 : Nat) : Int) := by omega
      simp only [moreEventsLine, e, formatInt]
      simp
    · rw [if_neg (by omega), if_neg hl]
  · rw [h2, List.range_eq_range']

/-- C12 at a history of 25 events: 20 event lines, then `... and 5 more events`. -/
theorem historyTexts_spec_witness :
    (historyTexts 25 0 (List.replicate 25 pastEvent)).map Prod.snd =
      List.replicate 20 (ascii "AB100 R2-E4") ++ [ascii "... and 5 more events"] ∧
    historyLine dottedPastEvent = [0x41, 0x42, 0xE2, 0x80, 0xA6] ++ ascii " R1-E2 W" :=
  ⟨by
    have h := (historyTexts_spec (List.replicate 25 pastEvent)).1
    simp only [List.length_replicate] at h
    rw [h]
    decide,
   by decide⟩

/-! ## The auction ledger -/

/-- C16: the currency symbol is `€` for exactly `EUR`, `£` for exactly `GBP`, and `$` for
every other code, among them `USD`, the empty string and `eur`. -/
theorem currencySymbol_spec (currency : GoString) :
    (currency = ascii "EUR" → currencySymbol currency = [0xE2, 0x82, 0xAC]) ∧
    (currency = ascii "GBP" → currencySymbol currency = [0xC2, 0xA3]) ∧
    (currency ≠ ascii "EUR" → currency ≠ ascii "GBP" → currencySymbol currency = ascii "$") ∧
    currencySymbol (ascii "USD") = ascii "$" ∧ currencySymbol [] = ascii "$" ∧
    currencySymbol (ascii "eur") = ascii "$" := by
  refine ⟨?_, ?_, ?_, by decide, by decide, by decide⟩
  · intro h
    subst h
    decide
  · intro h
    subst h
    decide
  · intro h1 h2
    simp [currencySymbol, h1, h2]

/-! ## Decimal numerals -/

theorem decimalRev_digits (fuel : Nat) : ∀ n, ∀ b ∈ decimalRev fuel n, 48 ≤ b ∧ b ≤ 57 := by
  induction fuel with
  | zero => intro n b hb; simp [decimalRev] at hb
  | succ fuel ih =>
    intro n b hb
    by_cases h : n < 10
    · simp only [decimalRev, if_pos h, List.mem_singleton] at hb
      omega
    · simp only [decimalRev, if_neg h, List.mem_cons] at hb
      rcases hb with hb | hb
      · have := Nat.mod_lt n (by decide : 10 > 0)
        omega
      · exact ih _ b hb

theorem decimalRev_ne_nil (fuel n : Nat) : decimalRev (fuel + 1) n ≠ [] := by
  by_cases h : n < 10 <;> simp [decimalRev, h]

theorem decimalRev_inj (fuel1 : Nat) : ∀ (fuel2 a b : Nat), a < fuel1 → b < fuel2 →
    decimalRev fuel1 a = decimalRev fuel2 b → a = b := by
  induction fuel1 with
  | zero => intro fuel2 a b ha; omega
  | succ fuel1 ih =>
    intro fuel2 a b ha hb h
    cases fuel2 with
    | zero => omega
    | succ fuel2 =>
      by_cases h1 : a < 10
      · by_cases h2 : b < 10
        · simp only [decimalRev, if_pos h1, if_pos h2, List.cons.injEq, and_true] at h
          omega
        · simp only [decimalRev, if_pos h1, if_neg h2, List.cons.injEq] at h
          cases fuel2 with
          | zero => omega
          | succ fuel2 => exact absurd h.2.symm (decimalRev_ne_nil _ _)
      · by_cases h2 : b < 10
        · simp only [decimalRev, if_neg h1, if_pos h2, List.cons.injEq] at h
          cases fuel1 with
          | zero => omega
          | succ fuel1 => exact absurd h.2 (decimalRev_ne_nil _ _)
        · simp only [decimalRev, if_neg h1, if_neg h2, List.cons.injEq] at h
          have hq : a / 10 = b / 10 :=
            ih fuel2 (a / 10) (b / 10) (by omega) (by omega) h.2
          have hm : a % 10 = b % 10 := by omega
          omega

theorem decimal_inj (a b : Nat) (h : decimal a = decimal b) : a = b :=
  decimalRev_inj (a + 1) (b + 1) a b (by omega) (by omega) (List.reverse_injective h)

theorem decimal_digits (n : Nat) : ∀ b ∈ decimal n, 48 ≤ b ∧ b ≤ 57 := by
  intro b hb
  exact decimalRev_digits _ _ b (List.mem_reverse.mp hb)

theorem decimal_ne_nil (n : Nat) : decimal n ≠ [] := by
  intro h
  exact decimalRev_ne_nil n n (List.reverse_eq_nil_iff.mp h)

/-- Two strings that agree and are cut at a dash after dash-free parts agree part by part. -/
theorem append_dash_inj : ∀ (d1 d2 x1 x2 : GoString), (∀ b ∈ d1, b ≠ 45) → (∀ b ∈ d2, b ≠ 45) →
    d1 ++ 45 :: x1 = d2 ++ 45 :: x2 → d1 = d2 ∧ x1 = x2 := by
  intro d1
  induction d1 with
  | nil =>
    intro d2 x1 x2 _ h2 h
    cases d2 with
    | nil => simpa using h
    | cons c d2 =>
      simp only [List.nil_append, List.cons_append, List.cons.injEq] at h
      exact absurd h.1.symm (h2 c (List.mem_cons_self _ _))
  | cons a d1 ih =>
    intro d2 x1 x2 h1 h2 h
    cases d2 with
    | nil =>
      simp only [List.nil_append, List.cons_append, List.cons.injEq] at h
      exact absurd h.1 (h1 a (List.mem_cons_self _ _))
    | cons c d2 =>
      simp only [List.cons_append, List.cons.injEq] at h
      obtain ⟨e1, e2⟩ := ih d2 x1 x2 (fun b hb => h1 b (List.mem_cons_of_mem _ hb))
        (fun b hb => h2 b (List.mem_cons_of_mem _ hb)) h.2
      exact ⟨by rw [h.1, e1], e2⟩

theorem decimal_no_dash (n : Nat) : ∀ b ∈ decimal n, b ≠ 45 := by
  intro b hb
  have := decimal_digits n b hb
  omega

theorem decimal_head_ne_dash (n : Nat) (t x : GoString) : decimal n ++ t ≠ 45 :: x := by
  intro h
  cases hd : decimal n with
  | nil => exact decimal_ne_nil n hd
  | cons c ds =>
    rw [hd] at h
    simp only [List.cons_append, List.cons.injEq] at h
    have := decimal_digits n c (by rw [hd]; exact List.mem_cons_self _ _)
    omega

/-- The numeral `%d` writes, followed by a dash, determines the number and what follows. -/
theorem formatInt_append_dash_inj (a b : Int) (x y : GoString)
    (h : formatInt a ++ 45 :: x = formatInt b ++ 45 :: y) : a = b ∧ x = y := by
  by_cases ha : a < 0
  · by_cases hb : b < 0
    · simp only [formatInt, if_pos ha, if_pos hb, List.cons_append, List.cons.injEq,
        true_and] at h
      obtain ⟨e1, e2⟩ := append_dash_inj _ _ _ _ (decimal_no_dash _) (decimal_no_dash _) h
      have := decimal_inj _ _ e1
      exact ⟨by omega, e2⟩
    · simp only [formatInt, if_pos ha, if_neg hb, List.cons_append] at h
      exact absurd h.symm (decimal_head_ne_dash _ _ _)
  · by_cases hb : b < 0
    · simp only [formatInt, if_neg ha, if_pos hb, List.cons_append] at h
      exact absurd h (decimal_head_ne_dash _ _ _)
    · simp only [formatInt, if_neg ha, if_neg hb] at h
      obtain ⟨e1, e2⟩ := append_dash_inj _ _ _ _ (decimal_no_dash _) (decimal_no_dash _) h
      have := decimal_inj _ _ e1
      exact ⟨by omega, e2⟩

theorem formatInt_inj (a b : Int) (h : formatInt a = formatInt b) : a = b :=
  (formatInt_append_dash_inj a b [] [] (by rw [h])).1

/-- The key of the lot map determines the round and the easel. -/
theorem roundEaselKey_inj (r e r' e' : Int) (h : roundEaselKey r e = roundEaselKey r' e') :
    r = r' ∧ e = e' := by
  have h' : formatInt r ++ 45 :: formatInt e = formatInt r' ++ 45 :: formatInt e' := by
    simpa [roundEaselKey, ascii] using h
  obtain ⟨e1, e2⟩ := formatInt_append_dash_inj _ _ _ _ h'
  exact ⟨e1, formatInt_inj _ _ e2⟩

theorem foldl_lotMap_of_no_key (key : GoString) (auctionLots : List AuctionLot) :
    ∀ lotMap : GoString → Option AuctionLot,
      (∀ lot ∈ auctionLots, key ≠ roundEaselKey lot.Round lot.EaselNumber) →
      (auctionLots.foldl
        (fun lotMap lot key =>
          if key = roundEaselKey lot.Round lot.EaselNumber then some lot else lotMap key)
        lotMap) key = lotMap key := by
  induction auctionLots with
  | nil => intro lotMap _; rfl
  | cons lot rest ih =>
    intro lotMap h
    rw [List.foldl_cons, ih _ (fun l hl => h l (List.mem_cons_of_mem _ hl))]
    simp [h lot (List.mem_cons_self _ _)]

theorem buildLotMap_of_no_lot (auctionLots : List AuctionLot) (round easel : Int)
    (h : ∀ lot ∈ auctionLots, ¬ (lot.Round = round ∧ lot.EaselNumber = easel)) :
    buildLotMap auctionLots (roundEaselKey round easel) = none := by
  unfold buildLotMap
  rw [foldl_lotMap_of_no_key]
  intro lot hl hk
  have := roundEaselKey_inj _ _ _ _ hk
  exact h lot hl ⟨this.1.symm, this.2.symm⟩

theorem cleanString_dash : cleanString (ascii "-") = ascii "-" := by decide

/-- C15: for an artist whose round and easel no auction lot has, the six cells of the ledger
row are the label, the name, bid count `0`, and `-` for the top bid, the bidder and the
payment status; the row loop draws exactly these cells for such an artist when it is not
confirmed-only. -/
theorem ledger_missing_lot (eventEID currency : GoString) (auctionLots : List AuctionLot)
    (artist : EventArtist) (rest : List EventArtist)
    (hs : artist.Status ≠ confirmedOnly)
    (h : ∀ lot ∈ auctionLots,
      ¬ (lot.Round = artist.RoundNumber ∧ lot.EaselNumber = artist.EaselNumber)) :
    ledgerRowTexts eventEID currency (buildLotMap auctionLots) artist =
      [eidRoundEasel eventEID artist, cleanString (resolveName artist), ascii "0", ascii "-",
        ascii "-", ascii "-"] ∧
    auctionRows eventEID currency (buildLotMap auctionLots) (artist :: rest) =
      ledgerRowOps [eidRoundEasel eventEID artist, cleanString (resolveName artist),
          ascii "0", ascii "-", ascii "-", ascii "-"]
        ++ auctionRows eventEID currency (buildLotMap auctionLots) rest := by
  have ht : ledgerRowTexts eventEID currency (buildLotMap auctionLots) artist =
      [eidRoundEasel eventEID artist, cleanString (resolveName artist), ascii "0", ascii "-",
        ascii "-", ascii "-"] := by
    simp only [ledgerRowTexts, buildLotMap_of_no_lot auctionLots _ _ h, ledgerValues,
      cleanString_dash]
  refine ⟨ht, ?_⟩
  simp only [auctionRows, if_neg hs, ht]

/-- C15 at the scenario's lot list and an artist of round 3: no lot, placeholders. -/
theorem ledger_missing_lot_witness :
    ledgerRowTexts (ascii "AB2995") (ascii "USD") (buildLotMap [scenarioLot]) strayArtist =
      [ascii "AB2995-3-1", ascii "Ann", ascii "0", ascii "-", ascii "-", ascii "-"] := by
  have h := (ledger_missing_lot (ascii "AB2995") (ascii "USD") [scenarioLot] strayArtist []
    (by decide) (by decide)).1
  rw [h]
  decide

theorem formatFloat0_natCast (n : Nat) : formatFloat0 (n : ℚ) = decimal n := by
  have h0 : ¬ ((n : ℚ) < 0) := not_lt.mpr (Nat.cast_nonneg n)
  have hr : roundHalfEven (n : ℚ) = (n : Int) := by
    simp [roundHalfEven]
  simp only [formatFloat0, if_neg h0, hr, Int.natAbs_ofNat]

/-- C17: for a lot whose highest bid is a positive whole number `n`, the top bid is the
currency symbol immediately followed by the decimal numeral of `n`, which holds digits
only; it is the fourth cell of the ledger row of an artist joined to that lot. -/
theorem topBid_whole_number (eventEID currency : GoString)
    (lotMap : GoString → Option AuctionLot) (artist : EventArtist) (lot : AuctionLot)
    (n : Nat) (hn : 0 < n) (hb : lot.HighestBid = (n : ℚ))
    (hj : lotMap (roundEaselKey artist.RoundNumber artist.EaselNumber) = some lot) :
    (ledgerValues currency (some lot)).topBid = currencySymbol currency ++ decimal n ∧
    (ledgerRowTexts eventEID currency lotMap artist).get? 3 =
      some (currencySymbol currency ++ decimal n) ∧
    (∀ b ∈ decimal n, 48 ≤ b ∧ b ≤ 57) := by
  have hpos : (n : ℚ) > 0 := by exact_mod_cast hn
  have ht : (ledgerValues currency (some lot)).topBid = currencySymbol currency ++ decimal n := by
    simp only [ledgerValues, hb, if_pos hpos, formatFloat0_natCast]
  refine ⟨ht, ?_, decimal_digits n⟩
  simp only [ledgerRowTexts, hj, ht]
  rfl

/-- C17 at the scenario: highest bid 250 in `USD` is shown as `$250`. -/
theorem topBid_whole_number_witness :
    (ledgerRowTexts (ascii "AB2995") (ascii "USD") (buildLotMap [scenarioLot]) janeDoe).get? 3
      = some (ascii "$250") := by
  have h := (topBid_whole_number (ascii "AB2995") (ascii "USD") (buildLotMap [scenarioLot])
    janeDoe scenarioLot 250 (by decide) (by simp [scenarioLot]) (by decide)).2.1
  rw [h]
  decide

/-! ## Rows and pages -/

theorem artistListRows_eq (artists : List EventArtist) :
    artistListRows artists = ((rosterRowArtists artists).map rosterRowOps).flatten := by
  induction artists with
  | nil => rfl
  | cons a rest ih =>
    by_cases h : a.Status = confirmedOnly <;>
      simp [artistListRows, rosterRowArtists, h, ih]

theorem auctionRows_eq (eventEID currency : GoString) (lotMap : GoString → Option AuctionLot)
    (artists : List EventArtist) :
    auctionRows eventEID currency lotMap artists =
      ((ledgerRowArtists artists).map
        (fun a => ledgerRowOps (ledgerRowTexts eventEID currency lotMap a))).flatten := by
  induction artists with
  | nil => rfl
  | cons a rest ih =>
    by_cases h : a.Status = confirmedOnly <;>
      simp [auctionRows, ledgerRowArtists, h, ih]

theorem detailPages_eq (s : PaperworkPDFService) (w : World) (eventName eventEID : GoString)
    (artists : List EventArtist) :
    detailPages s w eventName eventEID artists =
      ((detailPageArtists artists).map
        (fun a => addPageWithBackground s w (ascii "artist-page-bg.png")
          ++ addArtistPageContent w eventName eventEID a)).flatten := by
  induction artists with
  | nil => rfl
  | cons a rest ih =>
    by_cases h : a.Status = confirmedOnly <;>
      simp [detailPages, detailPageArtists, h, ih]

/-- C14: the roster rows, the ledger rows and the detail pages are drawn, one each and in
order, for the artists of one and the same list: the input list without its confirmed-only
artists, which is a sublist of the input (the order is kept, nothing is sorted or
repeated). -/
theorem rows_in_input_order (s : PaperworkPDFService) (w : World)
    (eventName eventEID currency : GoString) (lotMap : GoString → Option AuctionLot)
    (artists : List EventArtist) :
    artistListRows artists = ((rosterRowArtists artists).map rosterRowOps).flatten ∧
    auctionRows eventEID currency lotMap artists =
      ((rosterRowArtists artists).map
        (fun a => ledgerRowOps (ledgerRowTexts eventEID currency lotMap a))).flatten ∧
    detailPages s w eventName eventEID artists =
      ((rosterRowArtists artists).map
        (fun a => addPageWithBackground s w (ascii "artist-page-bg.png")
          ++ addArtistPageContent w eventName eventEID a)).flatten ∧
    rosterRowArtists artists = artists.filter (fun a => decide (a.Status ≠ confirmedOnly)) ∧
    (rosterRowArtists artists).Sublist artists := by
  refine ⟨artistListRows_eq artists, ?_, ?_, rosterRowArtists_eq_filter artists, ?_⟩
  · rw [auctionRows_eq, ledgerRowArtists_eq_roster]
  · rw [detailPages_eq, detailPageArtists_eq_roster]
  · rw [rosterRowArtists_eq_filter]
    exact List.filter_sublist artists

theorem pageCount_append (a b : List Op) : pageCount (a ++ b) = pageCount a + pageCount b := by
  induction a with
  | nil => simp [pageCount]
  | cons op rest ih =>
    cases op <;> simp [pageCount, ih]
    omega

theorem pageHeadings_length (ops : List Op) : (pageHeadings ops).length = pageCount ops := by
  induction ops with
  | nil => rfl
  | cons op rest ih =>
    cases op <;> simp [pageHeadings, pageCount, ih]

theorem placedTexts_append (a b : List Op) :
    placedTexts (a ++ b) = placedTexts a ++ placedTexts b := by
  simp [placedTexts]

theorem pageHeadings_append_of_noPage (a b : List Op) (h : pageCount a = 0) :
    pageHeadings (a ++ b) = pageHeadings b := by
  induction a with
  | nil => rfl
  | cons op rest ih =>
    cases op <;> simp [pageCount] at h <;> simp [pageHeadings, ih h]

theorem firstText_append_of_some (a b : List Op) (t : GoString) (h : firstText a = some t) :
    firstText (a ++ b) = some t := by
  induction a with
  | nil => simp [firstText] at h
  | cons op rest ih =>
    cases op <;> simp [firstText] at h ⊢ <;> first | exact h | exact ih h

theorem firstText_append_of_silent (a b : List Op) (hp : pageCount a = 0)
    (ht : placedTexts a = []) : firstText (a ++ b) = firstText b := by
  induction a with
  | nil => rfl
  | cons op rest ih =>
    cases op <;> simp [pageCount, placedTexts, Op.text?] at hp ht <;>
      simp [firstText] <;> exact ih hp (by simpa [placedTexts] using ht)

/-- A page: `addPageWithBackground`, then content that adds no page and places a first
text.  It counts as one page and its heading is that text. -/
theorem pageHeadings_page (s : PaperworkPDFService) (w : World) (file : GoString)
    (content rest : List Op) (t : GoString) (hc : pageCount content = 0)
    (ht : firstText content = some t) :
    pageHeadings (addPageWithBackground s w file ++ (content ++ rest))
      = some t :: pageHeadings rest := by
  have h1 : firstText (content ++ rest) = some t := firstText_append_of_some _ _ _ ht
  have h2 : pageHeadings (content ++ rest) = pageHeadings rest :=
    pageHeadings_append_of_noPage _ _ hc
  by_cases hf : w.fileExists (w.joinPath s.backgroundsPath file) = true
  · simp [addPageWithBackground, hf, pageHeadings, firstText, h1, h2]
  · simp [addPageWithBackground, hf, pageHeadings, firstText, h1, h2]

theorem pageCount_artistListRows (artists : List EventArtist) :
    pageCount (artistListRows artists) = 0 := by
  induction artists with
  | nil => rfl
  | cons a rest ih =>
    by_cases h : a.Status = confirmedOnly <;>
      simp [artistListRows, rosterRowOps, h, ih, pageCount]

theorem pageCount_addArtistListContent (eventName : GoString) (artists : List EventArtist) :
    pageCount (addArtistListContent eventName artists) = 0 := by
  simp [addArtistListContent, headerRow, pageCount_append, pageCount,
    pageCount_artistListRows]

theorem firstText_addArtistListContent (eventName : GoString) (artists : List EventArtist) :
    firstText (addArtistListContent eventName artists) = some (cleanString eventName) := by
  simp [addArtistListContent, firstText]

theorem pageCount_auctionRows (eventEID currency : GoString)
    (lotMap : GoString → Option AuctionLot) (artists : List EventArtist) :
    pageCount (auctionRows eventEID currency lotMap artists) = 0 := by
  induction artists with
  | nil => rfl
  | cons a rest ih =>
    by_cases h : a.Status = confirmedOnly <;>
      simp [auctionRows, ledgerRowOps, ledgerRowTexts, h, ih, pageCount, pageCount_append]

theorem pageCount_addAuctionInfoContent (eventEID currency : GoString)
    (artists : List EventArtist) (auctionLots : List AuctionLot) :
    pageCount (addAuctionInfoContent eventEID currency artists auctionLots) = 0 := by
  simp [addAuctionInfoContent, headerRow, pageCount_append, pageCount, pageCount_auctionRows]

theorem firstText_addAuctionInfoContent (eventEID currency : GoString)
    (artists : List EventArtist) (auctionLots : List AuctionLot) :
    firstText (addAuctionInfoContent eventEID currency artists auctionLots)
      = some (ascii "Auction & Bidding Information") := by
  simp [addAuctionInfoContent, firstText]

theorem pageCount_bios (artists : List EventArtist) :
    pageCount ((artists.map artistBioOps).flatten) = 0 := by
  induction artists with
  | nil => rfl
  | cons a rest ih =>
    by_cases h : a.Bio = [] <;>
      simp [artistBioOps, h, ih, pageCount, pageCount_append]

theorem pageCount_addRoundBiosContent (eventName roundTitle : GoString)
    (artists : List EventArtist) :
    pageCount (addRoundBiosContent eventName roundTitle artists) = 0 := by
  simp [addRoundBiosContent, pageCount_append, pageCount, pageCount_bios]

theorem firstText_addRoundBiosContent (eventName roundTitle : GoString)
    (artists : List EventArtist) :
    firstText (addRoundBiosContent eventName roundTitle artists)
      = some (cleanString eventName ++ ascii " - " ++ roundTitle) := by
  simp [addRoundBiosContent, firstText]

theorem pageHeadings_bioPage (s : PaperworkPDFService) (w : World)
    (eventName roundTitle : GoString) (artists : List EventArtist) (rest : List Op) :
    pageHeadings (bioPage s w eventName roundTitle artists ++ rest)
      = bioHeading eventName roundTitle artists ++ pageHeadings rest := by
  by_cases h : artists.length > 0
  · simp only [bioPage, bioHeading, if_pos h]
    rw [List.append_assoc, pageHeadings_page s w _ _ rest _ (pageCount_addRoundBiosContent _ _ _)
      (firstText_addRoundBiosContent _ _ _)]
    simp
  · simp only [bioPage, bioHeading, if_neg h]
    rfl

theorem pageCount_qrOps (w : World) (eventEID : GoString) (artist : EventArtist) :
    pageCount (qrOps w eventEID artist) = 0 := by
  by_cases h : w.qrEncodes (qrURL eventEID artist) = true <;> simp [qrOps, h, pageCount]

theorem placedTexts_qrOps (w : World) (eventEID : GoString) (artist : EventArtist) :
    placedTexts (qrOps w eventEID artist) = [] := by
  by_cases h : w.qrEncodes (qrURL eventEID artist) = true <;>
    simp [qrOps, h, placedTexts, Op.text?]

theorem shrinkFontOps_silent (getStringWidth : Int → GoString → ℚ) (artistName : GoString)
    (fuel : Nat) : ∀ (fontSize : Int) (nameWidth : ℚ),
      pageCount (shrinkFontOps getStringWidth artistName fuel fontSize nameWidth) = 0 ∧
      placedTexts (shrinkFontOps getStringWidth artistName fuel fontSize nameWidth) = [] := by
  induction fuel with
  | zero => intro _ _; exact ⟨rfl, rfl⟩
  | succ fuel ih =>
    intro fontSize nameWidth
    by_cases h : nameWidth > availableWidth ∧ fontSize > 20
    · obtain ⟨h1, h2⟩ := ih (fontSize - 2) (getStringWidth (fontSize - 2) artistName)
      simp only [shrinkFontOps, if_pos h, pageCount, h1, placedTexts, List.filterMap_cons,
        Op.text?]
      exact ⟨trivial, h2⟩
    · simp only [shrinkFontOps, if_neg h]
      exact ⟨rfl, rfl⟩

theorem pageCount_historyLines (lines : List (Nat × GoString)) :
    pageCount ((lines.map historyLineOps).flatten) = 0 := by
  induction lines with
  | nil => rfl
  | cons l rest ih => simp [historyLineOps, pageCount, ih]

theorem placedTexts_historyLines (lines : List (Nat × GoString)) :
    placedTexts ((lines.map historyLineOps).flatten) = lines.map Prod.snd := by
  induction lines with
  | nil => rfl
  | cons l rest ih =>
    simp only [List.map_cons, List.flatten_cons, placedTexts_append, ih]
    simp [historyLineOps, placedTexts, Op.text?]

theorem firstText_setFont_cons (family : GoString) (size : ℚ) (rest : List Op) :
    firstText (Op.setFont family size :: rest) = firstText rest := rfl

theorem pageCount_addArtistPageContent (w : World) (eventName eventEID : GoString)
    (artist : EventArtist) : pageCount (addArtistPageContent w eventName eventEID artist) = 0 := by
  by_cases h : artist.Bio = [] <;>
    simp [addArtistPageContent, pageCount_append, pageCount, pageCount_qrOps,
      (shrinkFontOps_silent _ _ _ _ _).1, historyOps, pageCount_historyLines, h]

theorem firstText_addArtistPageContent (w : World) (eventName eventEID : GoString)
    (artist : EventArtist) :
    firstText (addArtistPageContent w eventName eventEID artist)
      = some (cleanString (resolveName artist)) := by
  unfold addArtistPageContent
  simp only [List.append_assoc]
  rw [firstText_append_of_silent _ _ (pageCount_qrOps _ _ _) (placedTexts_qrOps _ _ _),
    List.singleton_append, firstText_setFont_cons,
    firstText_append_of_silent _ _ (shrinkFontOps_silent _ _ _ _ _).1
      (shrinkFontOps_silent _ _ _ _ _).2]
  simp [firstText]

theorem pageHeadings_detailPages (s : PaperworkPDFService) (w : World)
    (eventName eventEID : GoString) (artists : List EventArtist) :
    pageHeadings (detailPages s w eventName eventEID artists)
      = (detailPageArtists artists).map (fun a => some (cleanString (resolveName a))) := by
  induction artists with
  | nil => rfl
  | cons a rest ih =>
    by_cases h : a.Status = confirmedOnly
    · simp only [detailPages, detailPageArtists, if_pos h, ih]
    · simp only [detailPages, detailPageArtists, if_neg h, List.append_assoc, List.map_cons]
      rw [pageHeadings_page s w _ _ _ _ (pageCount_addArtistPageContent _ _ _ _)
        (firstText_addArtistPageContent _ _ _ _), ih]

theorem pageCount_addCustomFonts (s : PaperworkPDFService) (w : World) :
    pageCount (addCustomFonts s w) = 0 := by
  unfold addCustomFonts
  induction w.fontOrder with
  | nil => rfl
  | cons font rest ih =>
    by_cases h : w.fileExists (w.joinPath s.fontsPath font.2) = true <;>
      simp [addCustomFont, h, pageCount, pageCount_append, ih]

/-- C13: the pages of the document, by their headings and in order, are the roster page
(headed by the event name), the auction ledger page, one bio page for each non-empty group
among Round 1, Round 2 and Additional in that order, and one detail page (headed by the
artist's name) for each artist that is not confirmed-only, in input order; the number of
pages is 2 plus the number of non-empty groups plus the number of those artists. -/
theorem page_sequence (s : PaperworkPDFService) (w : World) (event : Event)
    (artists : List EventArtist) (auctionLots : List AuctionLot) :
    pageHeadings (composeOps s w event artists auctionLots) =
      [some (cleanString event.Name), some (ascii "Auction & Bidding Information")]
      ++ bioHeading event.Name (ascii "Round 1 Artist Bios") (groupArtists artists).round1Artists
      ++ bioHeading event.Name (ascii "Round 2 Artist Bios") (groupArtists artists).round2Artists
      ++ bioHeading event.Name (ascii "Additional Artist Bios")
          (groupArtists artists).unmatchedArtists
      ++ (detailPageArtists artists).map (fun a => some (cleanString (resolveName a))) ∧
    pageCount (composeOps s w event artists auctionLots) =
      2 + (if (groupArtists artists).round1Artists.length > 0 then 1 else 0)
        + (if (groupArtists artists).round2Artists.length > 0 then 1 else 0)
        + (if (groupArtists artists).unmatchedArtists.length > 0 then 1 else 0)
        + (detailPageArtists artists).length := by
  have hh : pageHeadings (composeOps s w event artists auctionLots) =
      [some (cleanString event.Name), some (ascii "Auction & Bidding Information")]
      ++ bioHeading event.Name (ascii "Round 1 Artist Bios") (groupArtists artists).round1Artists
      ++ bioHeading event.Name (ascii "Round 2 Artist Bios") (groupArtists artists).round2Artists
      ++ bioHeading event.Name (ascii "Additional Artist Bios")
          (groupArtists artists).unmatchedArtists
      ++ (detailPageArtists artists).map (fun a => some (cleanString (resolveName a))) := by
    simp only [composeOps, addBioSummaryPages, List.append_assoc]
    rw [pageHeadings_append_of_noPage _ _ (pageCount_addCustomFonts s w),
      pageHeadings_page s w _ _ _ _ (pageCount_addArtistListContent _ _)
        (firstText_addArtistListContent _ _),
      pageHeadings_page s w _ _ _ _ (pageCount_addAuctionInfoContent _ _ _ _)
        (firstText_addAuctionInfoContent _ _ _ _),
      pageHeadings_bioPage, pageHeadings_bioPage, pageHeadings_bioPage,
      pageHeadings_detailPages]
    simp
  refine ⟨hh, ?_⟩
  rw [← pageHeadings_length, hh]
  simp only [List.length_append, List.length_cons, List.length_nil, List.length_map, bioHeading]
  split_ifs <;> simp

/-- C13 at the scenario of the specification: the roster and ledger pages, a Round 1 bio
page, an Additional bio page, and the one detail page of Jane Doe. -/
theorem page_sequence_witness :
    pageHeadings (composeOps {} fullWorld scenarioEvent [janeDoe, johnPublic] [scenarioLot]) =
      [some (ascii "Art Battle"), some (ascii "Auction & Bidding Information"),
        some (ascii "Art Battle - Round 1 Artist Bios"),
        some (ascii "Art Battle - Additional Artist Bios"), some (ascii "Jane Doe")] ∧
    pageCount (composeOps {} fullWorld scenarioEvent [janeDoe, johnPublic] [scenarioLot]) = 5 := by
  have h := page_sequence {} fullWorld scenarioEvent [janeDoe, johnPublic] [scenarioLot]
  refine ⟨?_, ?_⟩
  · rw [h.1]
    decide
  · rw [h.2]
    decide

/-! ## Sanitizer coverage -/

theorem placedTexts_ledgerRowOps (eventEID currency : GoString)
    (lotMap : GoString → Option AuctionLot) (artist : EventArtist) :
    placedTexts (ledgerRowOps (ledgerRowTexts eventEID currency lotMap artist))
      = ledgerRowTexts eventEID currency lotMap artist := by
  simp [ledgerRowOps, ledgerRowTexts, placedTexts, Op.text?]

theorem mem_placedTexts_auctionRows (eventEID currency : GoString)
    (lotMap : GoString → Option AuctionLot) (artist : EventArtist)
    (hs : artist.Status ≠ confirmedOnly) (t : GoString)
    (ht : t ∈ ledgerRowTexts eventEID currency lotMap artist) :
    ∀ artists : List EventArtist, artist ∈ artists →
      t ∈ placedTexts (auctionRows eventEID currency lotMap artists) := by
  intro artists
  induction artists with
  | nil => intro h; cases h
  | cons a rest ih =>
    intro hm
    by_cases h : a.Status = confirmedOnly
    · have hne : artist ≠ a := fun e => hs (e ▸ h)
      have hrest : artist ∈ rest := by
        rcases List.mem_cons.mp hm with e | e
        · exact absurd e hne
        · exact e
      simp only [auctionRows, if_pos h]
      exact ih hrest
    · simp only [auctionRows, if_neg h, placedTexts_append, List.mem_append,
        placedTexts_ledgerRowOps]
      rcases List.mem_cons.mp hm with e | e
      · left
        rw [← e]
        exact ht
      · right
        exact ih e

theorem mem_placedTexts_detailPages (s : PaperworkPDFService) (w : World)
    (eventName eventEID : GoString) (artist : EventArtist)
    (hs : artist.Status ≠ confirmedOnly) (t : GoString)
    (ht : t ∈ (historyTexts artist.EventHistory.length 0 artist.EventHistory).map Prod.snd) :
    ∀ artists : List EventArtist, artist ∈ artists →
      t ∈ placedTexts (detailPages s w eventName eventEID artists) := by
  intro artists
  induction artists with
  | nil => intro h; cases h
  | cons a rest ih =>
    intro hm
    by_cases h : a.Status = confirmedOnly
    · have hne : artist ≠ a := fun e => hs (e ▸ h)
      have hrest : artist ∈ rest := by
        rcases List.mem_cons.mp hm with e | e
        · exact absurd e hne
        · exact e
      simp only [detailPages, if_pos h]
      exact ih hrest
    · simp only [detailPages, if_neg h, placedTexts_append, List.mem_append]
      rcases List.mem_cons.mp hm with e | e
      · left
        right
        rw [← e]
        simp only [addArtistPageContent, historyOps, placedTexts_append, List.mem_append,
          placedTexts_historyLines]
        left
        left
        right
        exact ht
      · right
        exact ih e

/-- The label of a ledger row and the lines of the event history reach the page as they
are built, for every artist that is not confirmed-only. -/
theorem raw_texts_placed (s : PaperworkPDFService) (w : World) (event : Event)
    (artists : List EventArtist) (auctionLots : List AuctionLot) (artist : EventArtist)
    (hm : artist ∈ artists) (hs : artist.Status ≠ confirmedOnly) :
    eidRoundEasel event.EID artist ∈ placedTexts (composeOps s w event artists auctionLots) ∧
    (∀ t ∈ (historyTexts artist.EventHistory.length 0 artist.EventHistory).map Prod.snd,
      t ∈ placedTexts (composeOps s w event artists auctionLots)) := by
  constructor
  · simp only [composeOps, addAuctionInfoContent, placedTexts_append, List.mem_append]
    left; left; right; right
    exact mem_placedTexts_auctionRows _ _ _ artist hs _ (by simp [ledgerRowTexts]) artists hm
  · intro t ht
    simp only [composeOps, placedTexts_append, List.mem_append]
    right
    exact mem_placedTexts_detailPages s w _ _ artist hs t ht artists hm

/-- C18 fails on the code: for an event whose EID holds U+201C and an artist with a past
event whose code holds U+2026, the ledger label and the history line are placed with these
characters in them, though `cleanString` would have changed both. -/
theorem unsanitized_texts_placed :
    eidRoundEasel quotedEvent.EID veteranArtist
      ∈ placedTexts (composeOps {} fullWorld quotedEvent [veteranArtist] []) ∧
    leftDoubleQuote <:+: eidRoundEasel quotedEvent.EID veteranArtist ∧
    cleanString (eidRoundEasel quotedEvent.EID veteranArtist)
      ≠ eidRoundEasel quotedEvent.EID veteranArtist ∧
    historyLine dottedPastEvent
      ∈ placedTexts (composeOps {} fullWorld quotedEvent [veteranArtist] []) ∧
    ellipsis <:+: historyLine dottedPastEvent ∧
    cleanString (historyLine dottedPastEvent) ≠ historyLine dottedPastEvent := by
  have h := raw_texts_placed {} fullWorld quotedEvent [veteranArtist] [] veteranArtist
    (by decide) (by decide)
  exact ⟨h.1, by decide, by decide, h.2 _ (by decide), by decide, by decide⟩

/-! ## Failure of the composer -/

/-- The composer returns an error exactly when `pdf.Output` does, and then no bytes; when
`pdf.Output` succeeds its bytes are returned. -/
theorem generate_error_iff_output_error (s : PaperworkPDFService) (w : World) (event : Event)
    (artists : List EventArtist) (auctionLots : List AuctionLot) :
    ((GenerateEventPaperwork s w event artists auctionLots).2 ≠ none ↔
      ∃ err, w.output (composeOps s w event artists auctionLots) = Except.error err) ∧
    ((GenerateEventPaperwork s w event artists auctionLots).2 ≠ none →
      (GenerateEventPaperwork s w event artists auctionLots).1 = none) ∧
    (∀ bytes, w.output (composeOps s w event artists auctionLots) = Except.ok bytes →
      GenerateEventPaperwork s w event artists auctionLots = (some bytes, none)) := by
  unfold GenerateEventPaperwork
  cases h : w.output (composeOps s w event artists auctionLots) with
  | error err => simp
  | ok bytes => simp

theorem undefinedFont_missing_fonts (s : PaperworkPDFService) (w : World)
    (added : List GoString) (rest : List Op) :
    ∀ fonts : List (GoString × GoString),
      (∀ font ∈ fonts, w.fileExists (w.joinPath s.fontsPath font.2) = false) →
      undefinedFont added ((fonts.map (addCustomFont s w)).flatten ++ rest)
        = undefinedFont added rest := by
  intro fonts
  induction fonts with
  | nil => intro _; rfl
  | cons font fonts ih =>
    intro h
    have hf := h font (List.mem_cons_self _ _)
    simp only [List.map_cons, List.flatten_cons, addCustomFont, hf, Bool.false_eq_true,
      if_false, List.cons_append, List.nil_append, undefinedFont, List.append_assoc]
    exact ih (fun f hfm => h f (List.mem_cons_of_mem _ hfm))

theorem undefinedFont_addCustomFonts (s : PaperworkPDFService) (w : World)
    (h : ∀ font ∈ w.fontOrder, w.fileExists (w.joinPath s.fontsPath font.2) = false)
    (added : List GoString) (rest : List Op) :
    undefinedFont added (addCustomFonts s w ++ rest) = undefinedFont added rest :=
  undefinedFont_missing_fonts s w added rest w.fontOrder h

theorem undefinedFont_addPageWithBackground (s : PaperworkPDFService) (w : World)
    (file : GoString) (added : List GoString) (rest : List Op) :
    undefinedFont added (addPageWithBackground s w file ++ rest) = undefinedFont added rest := by
  by_cases hf : w.fileExists (w.joinPath s.backgroundsPath file) = true <;>
    simp [addPageWithBackground, hf, undefinedFont]

/-- When none of the font files exists, no family is added, and the first family the
composer selects, `AcuminBold` on the roster page, is undefined on the canvas: no default
font is selected in its place. -/
theorem undefinedFont_of_missing_fonts (s : PaperworkPDFService) (w : World) (event : Event)
    (artists : List EventArtist) (auctionLots : List AuctionLot)
    (h : ∀ font ∈ w.fontOrder, w.fileExists (w.joinPath s.fontsPath font.2) = false) :
    undefinedFont [] (composeOps s w event artists auctionLots) = some (ascii "AcuminBold") := by
  simp only [composeOps, List.append_assoc]
  rw [undefinedFont_addCustomFonts s w h, undefinedFont_addPageWithBackground]
  simp [addArtistListContent, undefinedFont]

/-- C19 fails on the code: with the three font files missing `addCustomFonts` only logs
three warnings, yet the composer goes on to select the family `AcuminBold`, which was never
added; on a canvas that rejects an undefined font `GenerateEventPaperwork` returns an error
and no bytes, while with the files present it returns none for the same input. -/
theorem missing_fonts_fail :
    addCustomFonts {} bareWorld =
      [Op.logWarn (ascii "Font file not found, using default"),
        Op.logWarn (ascii "Font file not found, using default"),
        Op.logWarn (ascii "Font file not found, using default")] ∧
    undefinedFont [] (composeOps {} bareWorld scenarioEvent [johnPublic] [scenarioLot])
      = some (ascii "AcuminBold") ∧
    (GenerateEventPaperwork {} bareWorld scenarioEvent [johnPublic] [scenarioLot]).2 ≠ none ∧
    (GenerateEventPaperwork {} bareWorld scenarioEvent [johnPublic] [scenarioLot]).1 = none ∧
    (GenerateEventPaperwork {} fullWorld scenarioEvent [johnPublic] [scenarioLot]).2 = none := by
  refine ⟨by decide, ?_, by decide, by decide, by decide⟩
  exact undefinedFont_of_missing_fonts {} bareWorld scenarioEvent [johnPublic] [scenarioLot]
    (by decide)

/-! ## The handler -/

/-- C20 fails as stated: a payload whose only artist is confirmed-only has no eligible
artist, and the handler still calls the composer with it and answers with the document. -/
theorem handler_composes_without_eligible :
    rosterRowArtists [johnPublic] = [] ∧
    ((PaperworkHandler.GenerateEventPaperwork {} fullWorld confirmedOnlyFetch
      (some (ascii "AB2995"))).composed.map (fun c => c.2.1)) = some [johnPublic] ∧
    (PaperworkHandler.GenerateEventPaperwork {} fullWorld confirmedOnlyFetch
      (some (ascii "AB2995"))).response = Response.pdf (some []) := by
  decide

/-- C20 as amended: the handler calls the composer exactly when the request names an EID,
the fetch succeeds and the payload holds at least one artist, eligible or not, and it then
passes the payload's event, artists and lots; a payload without artists is answered with
the error 404 `No artists found for this event` and the composer is not called. -/
theorem handler_composes_iff (s : PaperworkPDFService) (w : World)
    (fetch : GoString → Except GoString PaperworkData) (eid : Option GoString) :
    (∀ c, (PaperworkHandler.GenerateEventPaperwork s w fetch eid).composed = some c ↔
      ∃ e data, eid = some e ∧ e ≠ [] ∧ fetch e = Except.ok data ∧ data.Artists ≠ [] ∧
        c = (data.Event, data.Artists, data.AuctionLots)) ∧
    (∀ e data, eid = some e → e ≠ [] → fetch e = Except.ok data → data.Artists = [] →
      PaperworkHandler.GenerateEventPaperwork s w fetch eid =
        { response := Response.error 404 (ascii "No artists found for this event"),
          composed := none }) := by
  constructor
  · intro c
    cases eid with
    | none => simp [PaperworkHandler.GenerateEventPaperwork]
    | some e =>
      by_cases he : e = []
      · simp [PaperworkHandler.GenerateEventPaperwork, he]
      · cases hf : fetch e with
        | error err =>
          by_cases hn : err = ascii "event not found: " ++ e <;>
            simp [PaperworkHandler.GenerateEventPaperwork, he, hf, hn]
        | ok data =>
          by_cases ha : data.Artists = []
          · simp [PaperworkHandler.GenerateEventPaperwork, he, hf, ha]
          · have hl : ¬ data.Artists.length = 0 := by
              simpa [List.length_eq_zero] using ha
            have hc : (PaperworkHandler.GenerateEventPaperwork s w fetch (some e)).composed
                = some (data.Event, data.Artists, data.AuctionLots) := by
              simp only [PaperworkHandler.GenerateEventPaperwork, he, hf, hl, if_false]
              cases hg : GenerateEventPaperwork s w data.Event data.Artists
                  data.AuctionLots with
              | mk bytes err => cases err <;> rfl
            rw [hc]
            constructor
            · intro h
              exact ⟨e, data, rfl, he, hf, ha, (Option.some.inj h).symm⟩
            · rintro ⟨e2, d, he2, _, hd, _, hcc⟩
              cases he2
              rw [hf] at hd
              cases hd
              rw [hcc]
  · intro e data he hne hf ha
    subst he
    simp [PaperworkHandler.GenerateEventPaperwork, hne, hf, ha]

/-- C20 as amended, at a payload without artists and at one with a confirmed-only artist. -/
theorem handler_composes_iff_witness :
    PaperworkHandler.GenerateEventPaperwork {} fullWorld emptyFetch (some (ascii "AB2995")) =
      { response := Response.error 404 (ascii "No artists found for this event"),
        composed := none } ∧
    (PaperworkHandler.GenerateEventPaperwork {} fullWorld confirmedOnlyFetch
      (some (ascii "AB2995"))).composed = some (scenarioEvent, [johnPublic], []) :=
  ⟨(handler_composes_iff {} fullWorld emptyFetch (some (ascii "AB2995"))).2 (ascii "AB2995")
      { Event := scenarioEvent } rfl (by decide) rfl rfl,
   ((handler_composes_iff {} fullWorld confirmedOnlyFetch (some (ascii "AB2995"))).1
      (scenarioEvent, [johnPublic], [])).2
      ⟨ascii "AB2995", { Event := scenarioEvent, Artists := [johnPublic] }, rfl, by decide,
        rfl, by decide, rfl⟩⟩

/-! ## The lot join -/

theorem buildLotMap_concat (auctionLots : List AuctionLot) (lot : AuctionLot)
    (key : GoString) :
    buildLotMap (auctionLots ++ [lot]) key =
      if key = roundEaselKey lot.Round lot.EaselNumber then some lot
      else buildLotMap auctionLots key := by
  simp [buildLotMap, List.foldl_append]

theorem buildLotMap_eq_last (auctionLots : List AuctionLot) (round easel : Int) :
    buildLotMap auctionLots (roundEaselKey round easel) =
      (auctionLots.filter
        (fun lot => decide (lot.Round = round ∧ lot.EaselNumber = easel))).getLast? := by
  induction auctionLots using List.reverseRecOn with
  | nil => rfl
  | append_singleton lots lot ih =>
    rw [buildLotMap_concat, List.filter_append]
    by_cases h : lot.Round = round ∧ lot.EaselNumber = easel
    · have hk : roundEaselKey round easel = roundEaselKey lot.Round lot.EaselNumber := by
        rw [h.1, h.2]
      rw [if_pos hk]
      simp [h]
    · have hk : roundEaselKey round easel ≠ roundEaselKey lot.Round lot.EaselNumber := by
        intro e
        have := roundEaselKey_inj _ _ _ _ e
        exact h ⟨this.1.symm, this.2.symm⟩
      rw [if_neg hk, ih]
      simp [h]

/-- C21: the key `Sprintf("%d-%d", round, easel)` determines the round and the easel, for
all integers; the lot the map returns for an artist is the last lot of the input list whose
round and easel are the artist's, it is none exactly when no lot has this pair, and the
cells of the ledger row are those of this lot. -/
theorem lot_join (auctionLots : List AuctionLot) (artist : EventArtist)
    (eventEID currency : GoString) :
    (∀ r e r2 e2 : Int, roundEaselKey r e = roundEaselKey r2 e2 → r = r2 ∧ e = e2) ∧
    buildLotMap auctionLots (roundEaselKey artist.RoundNumber artist.EaselNumber) =
      (auctionLots.filter (fun lot =>
        decide (lot.Round = artist.RoundNumber ∧ lot.EaselNumber = artist.EaselNumber))).getLast? ∧
    (buildLotMap auctionLots (roundEaselKey artist.RoundNumber artist.EaselNumber) = none ↔
      ∀ lot ∈ auctionLots,
        ¬ (lot.Round = artist.RoundNumber ∧ lot.EaselNumber = artist.EaselNumber)) ∧
    ledgerRowTexts eventEID currency (buildLotMap auctionLots) artist =
      ledgerRowTexts eventEID currency
        (fun _ => (auctionLots.filter (fun lot =>
          decide (lot.Round = artist.RoundNumber
            ∧ lot.EaselNumber = artist.EaselNumber))).getLast?) artist := by
  refine ⟨roundEaselKey_inj, buildLotMap_eq_last _ _ _, ?_, ?_⟩
  · rw [buildLotMap_eq_last, List.getLast?_eq_none_iff, List.filter_eq_nil_iff]
    simp
  · simp only [ledgerRowTexts, buildLotMap_eq_last]

/-- C21 at two lots of round 1, easel 1, followed by a lot of round 2: Jane Doe is joined to
the later of the two; and the keys of the pairs (1, -2) and (-1, 2) differ. -/
theorem lot_join_witness :
    buildLotMap [scenarioLot, lateLot, otherLot]
      (roundEaselKey janeDoe.RoundNumber janeDoe.EaselNumber) = some lateLot ∧
    roundEaselKey 1 (-2) = ascii "1--2" ∧ roundEaselKey (-1) 2 = ascii "-1-2" := by
  refine ⟨?_, by decide, by decide⟩
  rw [(lot_join [scenarioLot, lateLot, otherLot] janeDoe [] []).2.1]
  rfl

/-! ## The place of the event history -/

theorem cellBoxes_historyLines (lines : List (Nat × GoString)) :
    cellBoxes ((lines.map historyLineOps).flatten) =
      lines.map (fun l => ((118 : ℚ) + 6 * (l.1 : ℚ), (6 : ℚ), l.2)) := by
  induction lines with
  | nil => rfl
  | cons l rest ih =>
    have e : (List.map historyLineOps (l :: rest)).flatten =
        Op.setXY 20 (118 + (l.1 : ℚ) * 6) :: Op.cell 115 6 l.2
          :: (rest.map historyLineOps).flatten := rfl
    rw [e, cellBoxes, ih, List.map_cons, mul_comm]

theorem summary_line_mem (historyLength : Nat) (history : List ArtistEvent) :
    ∀ i, i ≤ 20 → 20 - i < history.length →
      (20, moreEventsLine historyLength) ∈ historyTexts historyLength i history := by
  induction history with
  | nil => intro i _ h; simp at h
  | cons event rest ih =>
    intro i hi hl
    by_cases h20 : i ≥ 20
    · have : i = 20 := by omega
      subst this
      simp [historyTexts]
    · simp only [historyTexts, h20, if_false, List.mem_cons]
      right
      exact ih (i + 1) (by omega) (by simp only [List.length_cons] at hl; omega)

/-- C22: the lines of the event history are drawn, in order, as cells of height 6 with top
edge `118 + 6 * i`, where `i` runs through 0, 1, 2, ... (at most 21 lines); on the page of
height 215.9 such a cell lies within the page exactly when `i ≤ 15`, from `i = 16` on its
lower edge is below the bottom edge of the page, from `i = 17` on so is its top edge; and
for a history of more than 20 events the summary line is drawn at `y = 238`, below the
page. -/
theorem history_line_placement (history : List ArtistEvent) :
    cellBoxes (historyOps history) =
      (historyTexts history.length 0 history).map
        (fun l => ((118 : ℚ) + 6 * (l.1 : ℚ), (6 : ℚ), l.2)) ∧
    (historyTexts history.length 0 history).map Prod.fst = List.range (min history.length 21) ∧
    (∀ i : Nat, withinPage (118 + 6 * (i : ℚ)) 6 ↔ i ≤ 15) ∧
    (∀ i : Nat, 16 ≤ i → pageHeight < 118 + 6 * (i : ℚ) + 6) ∧
    (∀ i : Nat, 17 ≤ i → pageHeight < 118 + 6 * (i : ℚ)) ∧
    (20 < history.length →
      ((238 : ℚ), (6 : ℚ), moreEventsLine history.length) ∈ cellBoxes (historyOps history) ∧
      pageHeight < 238) := by
  have hboxes : cellBoxes (historyOps history) =
      (historyTexts history.length 0 history).map
        (fun l => ((118 : ℚ) + 6 * (l.1 : ℚ), (6 : ℚ), l.2)) := by
    unfold historyOps
    exact cellBoxes_historyLines _
  refine ⟨hboxes, ?_, ?_, ?_, ?_, ?_⟩
  · rw [(historyTexts_from history.length history 0 (by omega)).2, List.range_eq_range']
  · intro i
    unfold withinPage pageHeight
    constructor
    · rintro ⟨_, h⟩
      by_contra hi
      have h16 : (16 : ℚ) ≤ (i : ℚ) := by exact_mod_cast (by omega : 16 ≤ i)
      norm_num at h
      linarith
    · intro hi
      have h15 : (i : ℚ) ≤ 15 := by exact_mod_cast hi
      have h0 : (0 : ℚ) ≤ (i : ℚ) := Nat.cast_nonneg i
      constructor
      · linarith
      · norm_num
        linarith
  · intro i hi
    have h16 : (16 : ℚ) ≤ (i : ℚ) := by exact_mod_cast hi
    unfold pageHeight
    norm_num
    linarith
  · intro i hi
    have h17 : (17 : ℚ) ≤ (i : ℚ) := by exact_mod_cast hi
    unfold pageHeight
    norm_num
    linarith
  · intro hl
    refine ⟨?_, by unfold pageHeight; norm_num⟩
    rw [hboxes, List.mem_map]
    refine ⟨(20, moreEventsLine history.length),
      summary_line_mem history.length history 0 (by omega) (by omega), ?_⟩
    norm_num

/-- C22 at a history of 25 events: the line of index 15 lies within the page, the line of
index 16 does not, and the summary line `... and 5 more events` is drawn at `y = 238`. -/
theorem history_line_placement_witness :
    withinPage (118 + 6 * ((15 : Nat) : ℚ)) 6 ∧
    ¬ withinPage (118 + 6 * ((16 : Nat) : ℚ)) 6 ∧
    ((238 : ℚ), (6 : ℚ), ascii "... and 5 more events")
      ∈ cellBoxes (historyOps (List.replicate 25 pastEvent)) := by
  have h := history_line_placement (List.replicate 25 pastEvent)
  refine ⟨(h.2.2.1 15).2 (by decide), fun hw => ?_, ?_⟩
  · exact absurd ((h.2.2.1 16).1 hw) (by decide)
  · have hm := (h.2.2.2.2.2 (by simp)).1
    have e : moreEventsLine (List.replicate 25 pastEvent).length
        = ascii "... and 5 more events" := by decide
    rw [e] at hm
    exact hm

/-! ## The name that is measured and the name that is drawn -/

theorem mappedChars_cases (p : GoString) (hp : p ∈ mappedChars) :
    p = nul ∨ ∃ x, isMappedThird x ∧ p = [0xE2, 0x80, x] := by
  simp only [mappedChars, List.mem_cons, List.mem_singleton, List.not_mem_nil, or_false] at hp
  rcases hp with h | h | h | h | h | h | h | h <;> subst h
  · right; exact ⟨0x9C, by simp [isMappedThird], rfl⟩
  · right; exact ⟨0x9D, by simp [isMappedThird], rfl⟩
  · right; exact ⟨0x98, by simp [isMappedThird], rfl⟩
  · right; exact ⟨0x99, by simp [isMappedThird], rfl⟩
  · right; exact ⟨0x93, by simp [isMappedThird], rfl⟩
  · right; exact ⟨0x94, by simp [isMappedThird], rfl⟩
  · right; exact ⟨0xA6, by simp [isMappedThird], rfl⟩
  · left; rfl

theorem substChar_mapped_count (x : Nat) (hx : isMappedThird x) :
    (substChar [0xE2, 0x80, x]).count 0xE2 = 0 ∧ (substChar [0xE2, 0x80, x]).count 0 = 0 ∧
    x ≠ 0xE2 ∧ x ≠ 0 := by
  simp only [isMappedThird, List.mem_cons, List.mem_singleton, List.not_mem_nil,
    or_false] at hx
  rcases hx with h | h | h | h | h | h | h <;> subst h <;> decide

/-- The sanitizer never adds a byte `E2` or `00`, and it removes one for every mapped
character it meets: the number of these bytes does not grow, and it falls when a mapped
character occurs in the string. -/
theorem cleanString_count : ∀ (n : Nat) (s : GoString), s.length ≤ n →
    (cleanString s).count 0xE2 + (cleanString s).count 0 ≤ s.count 0xE2 + s.count 0 ∧
    ((∃ p ∈ mappedChars, p <:+: s) →
      (cleanString s).count 0xE2 + (cleanString s).count 0 < s.count 0xE2 + s.count 0) := by
  intro n
  induction n with
  | zero =>
    intro s hs
    have : s = [] := List.length_eq_zero.mp (Nat.le_zero.mp hs)
    subst this
    refine ⟨by simp [cleanString_nil], ?_⟩
    rintro ⟨p, hp, hin⟩
    have hnil : p = [] := List.eq_nil_of_infix_nil hin
    subst hnil
    exact absurd hp (by decide)
  | succ n ih =>
    intro s hs
    cases s with
    | nil =>
      refine ⟨by simp [cleanString_nil], ?_⟩
      rintro ⟨p, hp, hin⟩
      have hnil : p = [] := List.eq_nil_of_infix_nil hin
      subst hnil
      exact absurd hp (by decide)
    | cons c t =>
      have ht : t.length ≤ n := by
        simp only [List.length_cons] at hs
        omega
      obtain ⟨ihle, ihlt⟩ := ih t ht
      -- a mapped character that occurs in `c :: t` and does not start it occurs in `t`
      have hrest : ∀ p, p ∈ mappedChars → p <:+: c :: t → ¬ p <+: c :: t →
          ∃ q ∈ mappedChars, q <:+: t := by
        intro p hp hin hpre
        rcases List.infix_cons_iff.mp hin with h | h
        · exact absurd h hpre
        · exact ⟨p, hp, h⟩
      by_cases h0 : c = 0
      · subst h0
        rw [cleanString_cons_zero]
        have e1 : (0 :: t).count 0xE2 = t.count 0xE2 := by
          rw [List.count_cons_of_ne (by decide)]
        have e2 : (0 :: t).count 0 = t.count 0 + 1 := List.count_cons_self _ _
        rw [e1, e2]
        exact ⟨by omega, fun _ => by omega⟩
      · by_cases hc : c = 0xE2
        · subst hc
          by_cases hg : Guard t
          · rw [cleanString_guarded _ hg]
            have e1 : ∀ u : GoString, (0xE2 :: u).count 0xE2 = u.count 0xE2 + 1 :=
              fun u => List.count_cons_self _ _
            have e2 : ∀ u : GoString, (0xE2 :: u).count 0 = u.count 0 :=
              fun u => by rw [List.count_cons_of_ne (by decide)]
            rw [e1, e2, e1, e2]
            refine ⟨by omega, ?_⟩
            rintro ⟨p, hp, hin⟩
            have hpre : ¬ p <+: 0xE2 :: t := by
              intro hpre
              rcases mappedChars_cases p hp with h | ⟨x, hx, h⟩
              · subst h
                obtain ⟨r, hr⟩ := hpre
                simp [nul] at hr
              · subst h
                obtain ⟨r, hr⟩ := hpre
                have ht' : t = 0x80 :: x :: r := by
                  simp only [List.cons_append, List.nil_append, List.cons.injEq,
                    true_and] at hr
                  exact hr.symm
                exact hg x r ht' hx
            have := ihlt (hrest p hp hin hpre)
            omega
          · have hex : ∃ y t', t = 0x80 :: y :: t' ∧ isMappedThird y := by
              unfold Guard at hg
              push_neg at hg
              exact hg
            obtain ⟨y, t', e, hy⟩ := hex
            subst e
            have ht' : t'.length ≤ n := by
              simp only [List.length_cons] at ht
              omega
            obtain ⟨ihle', _⟩ := ih t' ht'
            obtain ⟨c1, c2, y1, y2⟩ := substChar_mapped_count y hy
            rw [cleanString_mapped y t' hy, List.count_append, List.count_append, c1, c2]
            have e1 : (0xE2 :: 0x80 :: y :: t').count 0xE2 = t'.count 0xE2 + 1 := by
              rw [List.count_cons_self, List.count_cons_of_ne (by decide),
                List.count_cons_of_ne (Ne.symm y1)]
            have e2 : (0xE2 :: 0x80 :: y :: t').count 0 = t'.count 0 := by
              rw [List.count_cons_of_ne (by decide), List.count_cons_of_ne (by decide),
                List.count_cons_of_ne (Ne.symm y2)]
            rw [e1, e2]
            exact ⟨by omega, fun _ => by omega⟩
        · rw [cleanString_cons_of_ne _ _ h0 hc]
          have e1 : ∀ u : GoString, (c :: u).count 0xE2 = u.count 0xE2 :=
            fun u => by rw [List.count_cons_of_ne (Ne.symm hc)]
          have e2 : ∀ u : GoString, (c :: u).count 0 = u.count 0 :=
            fun u => by rw [List.count_cons_of_ne (Ne.symm h0)]
          rw [e1, e2, e1, e2]
          refine ⟨ihle, ?_⟩
          rintro ⟨p, hp, hin⟩
          have hpre : ¬ p <+: c :: t := by
            intro hpre
            rcases mappedChars_cases p hp with h | ⟨x, _, h⟩
            · subst h
              obtain ⟨r, hr⟩ := hpre
              simp only [nul, List.cons_append, List.nil_append, List.cons.injEq] at hr
              exact h0 hr.1.symm
            · subst h
              obtain ⟨r, hr⟩ := hpre
              simp only [List.cons_append, List.cons.injEq] at hr
              exact hc hr.1.symm
          exact ihlt (hrest p hp hin hpre)

/-- The sanitizer changes every string in which a mapped character occurs. -/
theorem cleanString_ne_of_mapped (s : GoString) (h : ∃ p ∈ mappedChars, p <:+: s) :
    cleanString s ≠ s := by
  intro e
  have hlt := (cleanString_count s.length s (Nat.le_refl _)).2 h
  rw [e] at hlt
  exact Nat.lt_irrefl _ hlt

theorem cleanString_eq_self_iff (s : GoString) :
    cleanString s = s ↔ ∀ p ∈ mappedChars, ¬ p <:+: s := by
  constructor
  · intro e p hp hin
    exact cleanString_ne_of_mapped s ⟨p, hp, hin⟩ e
  · exact cleanString_of_no_mapped s

theorem shrinkFontOps_congr (g g2 : Int → GoString → ℚ) (artistName : GoString)
    (h : ∀ size, g size artistName = g2 size artistName) :
    ∀ (fuel : Nat) (fontSize : Int) (nameWidth : ℚ),
      shrinkFontOps g artistName fuel fontSize nameWidth
        = shrinkFontOps g2 artistName fuel fontSize nameWidth := by
  intro fuel
  induction fuel with
  | zero => intro _ _; rfl
  | succ fuel ih =>
    intro fontSize nameWidth
    simp only [shrinkFontOps, h, ih]

/-- C23: on a detail page the shrink loop is run on the resolved name as it is, and the cell
that follows draws `cleanString` of that name; the sizes the loop selects depend on the
widths of the raw name only; the measured string is the drawn string exactly when
`cleanString` leaves the name unchanged, which is when none of the mapped characters occurs
in it; a name in which U+2026 occurs is changed (the one character becomes the three bytes
`...`), so its size is chosen for another string than the one drawn. -/
theorem fit_measures_raw_name (w : World) (eventName eventEID : GoString)
    (artist : EventArtist) :
    (∃ post, addArtistPageContent w eventName eventEID artist =
      qrOps w eventEID artist
        ++ (Op.setFont (ascii "AcuminBold") 49
          :: shrinkFontOps w.getStringWidth (resolveName artist) 15 49
              (w.getStringWidth 49 (resolveName artist)))
        ++ (Op.setTextColor 0 0 0 :: Op.setXY 70 48
          :: Op.cell availableWidth 10 (cleanString (resolveName artist)) :: post)) ∧
    (∀ g : Int → GoString → ℚ,
      (∀ size, g size (resolveName artist) = w.getStringWidth size (resolveName artist)) →
      shrinkFontOps g (resolveName artist) 15 49 (g 49 (resolveName artist)) =
        shrinkFontOps w.getStringWidth (resolveName artist) 15 49
          (w.getStringWidth 49 (resolveName artist))) ∧
    (resolveName artist = cleanString (resolveName artist) ↔
      cleanString (resolveName artist) = resolveName artist) ∧
    (cleanString (resolveName artist) = resolveName artist ↔
      ∀ p ∈ mappedChars, ¬ p <:+: resolveName artist) ∧
    (ellipsis <:+: resolveName artist →
      cleanString (resolveName artist) ≠ resolveName artist) ∧
    substChar ellipsis = ascii "..." := by
  refine ⟨?_, ?_, eq_comm, cleanString_eq_self_iff _, ?_, by decide⟩
  · exact ⟨_, by
      simp only [addArtistPageContent, List.append_assoc, List.cons_append, List.nil_append,
        List.singleton_append]
      rfl⟩
  · intro g hg
    rw [hg 49]
    exact shrinkFontOps_congr g w.getStringWidth _ hg 15 49 _
  · intro hin
    exact cleanString_ne_of_mapped _ ⟨ellipsis, by decide, hin⟩

/-- C23 at the artist `Ann…`: the loop measures `Ann…` and the page shows `Ann...`. -/
theorem fit_measures_raw_name_witness :
    resolveName dottedArtist = [0x41, 0x6E, 0x6E, 0xE2, 0x80, 0xA6] ∧
    cleanString (resolveName dottedArtist) = ascii "Ann..." ∧
    cleanString (resolveName dottedArtist) ≠ resolveName dottedArtist :=
  ⟨by decide, by decide,
    (fit_measures_raw_name fullWorld [] [] dottedArtist).2.2.2.2.1 (by decide)⟩

/-! ## An artist of another round -/

theorem artistListRows_append (xs ys : List EventArtist) :
    artistListRows (xs ++ ys) = artistListRows xs ++ artistListRows ys := by
  induction xs with
  | nil => rfl
  | cons x rest ih =>
    by_cases h : x.Status = confirmedOnly <;> simp [artistListRows, h, ih]

theorem auctionRows_append (eventEID currency : GoString)
    (lotMap : GoString → Option AuctionLot) (xs ys : List EventArtist) :
    auctionRows eventEID currency lotMap (xs ++ ys) =
      auctionRows eventEID currency lotMap xs ++ auctionRows eventEID currency lotMap ys := by
  induction xs with
  | nil => rfl
  | cons x rest ih =>
    by_cases h : x.Status = confirmedOnly <;> simp [auctionRows, h, ih]

theorem detailPages_append (s : PaperworkPDFService) (w : World)
    (eventName eventEID : GoString) (xs ys : List EventArtist) :
    detailPages s w eventName eventEID (xs ++ ys) =
      detailPages s w eventName eventEID xs ++ detailPages s w eventName eventEID ys := by
  induction xs with
  | nil => rfl
  | cons x rest ih =>
    by_cases h : x.Status = confirmedOnly <;> simp [detailPages, h, ih]

theorem infix_composeOps_of_roster (s : PaperworkPDFService) (w : World) (event : Event)
    (artists : List EventArtist) (auctionLots : List AuctionLot) (block : List Op)
    (h : block <:+: artistListRows artists) :
    block <:+: composeOps s w event artists auctionLots := by
  have h1 : block <:+: addArtistListContent event.Name artists := by
    unfold addArtistListContent
    exact h.trans (List.suffix_append _ _).isInfix
  unfold composeOps
  exact ((((h1.trans (List.suffix_append _ _).isInfix).trans
    (List.prefix_append _ _).isInfix).trans (List.prefix_append _ _).isInfix).trans
    (List.prefix_append _ _).isInfix).trans (List.prefix_append _ _).isInfix

theorem infix_composeOps_of_ledger (s : PaperworkPDFService) (w : World) (event : Event)
    (artists : List EventArtist) (auctionLots : List AuctionLot) (block : List Op)
    (h : block <:+: auctionRows event.EID event.Currency (buildLotMap auctionLots) artists) :
    block <:+: composeOps s w event artists auctionLots := by
  have h1 : block <:+: addAuctionInfoContent event.EID event.Currency artists auctionLots := by
    unfold addAuctionInfoContent
    exact h.trans (List.suffix_append _ _).isInfix
  unfold composeOps
  exact ((h1.trans (List.suffix_append _ _).isInfix).trans
    (List.prefix_append _ _).isInfix).trans (List.prefix_append _ _).isInfix

theorem infix_composeOps_of_detail (s : PaperworkPDFService) (w : World) (event : Event)
    (artists : List EventArtist) (auctionLots : List AuctionLot) (block : List Op)
    (h : block <:+: detailPages s w event.Name event.EID artists) :
    block <:+: composeOps s w event artists auctionLots := by
  unfold composeOps
  exact h.trans (List.suffix_append _ _).isInfix

theorem mem_placedTexts_of_infix (block ops : List Op) (t : GoString) (h : block <:+: ops)
    (ht : t ∈ placedTexts block) : t ∈ placedTexts ops := by
  obtain ⟨p, q, e⟩ := h
  rw [← e, placedTexts_append, placedTexts_append]
  simp [ht]

/-- The headings of the pages of the document, in order. -/
theorem pageHeadings_composeOps (s : PaperworkPDFService) (w : World) (event : Event)
    (artists : List EventArtist) (auctionLots : List AuctionLot) :
    pageHeadings (composeOps s w event artists auctionLots) =
      [some (cleanString event.Name), some (ascii "Auction & Bidding Information")]
      ++ bioHeading event.Name (ascii "Round 1 Artist Bios") (groupArtists artists).round1Artists
      ++ bioHeading event.Name (ascii "Round 2 Artist Bios") (groupArtists artists).round2Artists
      ++ bioHeading event.Name (ascii "Additional Artist Bios")
          (groupArtists artists).unmatchedArtists
      ++ (detailPageArtists artists).map (fun a => some (cleanString (resolveName a))) := by
  simp only [composeOps, addBioSummaryPages, List.append_assoc]
  rw [pageHeadings_append_of_noPage _ _ (pageCount_addCustomFonts s w),
    pageHeadings_page s w _ _ _ _ (pageCount_addArtistListContent _ _)
      (firstText_addArtistListContent _ _),
    pageHeadings_page s w _ _ _ _ (pageCount_addAuctionInfoContent _ _ _ _)
      (firstText_addAuctionInfoContent _ _ _ _),
    pageHeadings_bioPage, pageHeadings_bioPage, pageHeadings_bioPage,
    pageHeadings_detailPages]
  simp

theorem filter_without_artist (p : EventArtist → Bool) (a : EventArtist) (hp : p a = false)
    (l : List EventArtist) :
    (l.filter (fun x => decide (x ≠ a))).filter p = l.filter p := by
  rw [List.filter_filter]
  apply List.filter_congr
  intro x _
  by_cases hx : x = a
  · subst hx
    simp [hp]
  · simp [hx]

/-- The bio pages are those of the input without the artist, when the artist is in no
group. -/
theorem addBioSummaryPages_without (s : PaperworkPDFService) (w : World)
    (eventName : GoString) (artists : List EventArtist) (a : EventArtist)
    (hs : a.Status ≠ confirmedOnly) (h1 : a.RoundNumber ≠ 1) (h2 : a.RoundNumber ≠ 2) :
    addBioSummaryPages s w eventName artists =
      addBioSummaryPages s w eventName (artists.filter (fun x => decide (x ≠ a))) := by
  simp only [addBioSummaryPages, round1Artists_eq, round2Artists_eq, unmatchedArtists_eq]
  rw [filter_without_artist _ a (by simp [h1]), filter_without_artist _ a (by simp [h2]),
    filter_without_artist _ a (by simp [hs])]

/-- C6: an artist of the input whose status is not confirmed-only and whose round number is
neither 1 nor 2 is in none of the three bio groups, and the bio pages drawn are those of the
input without this artist; yet at every place of the artist in the input the roster loop
draws the row of the artist (the round-easel label and the name), the ledger loop draws the
ledger row and the detail loop draws a page headed by the name; these calls are part of the
composed document, which places the labels and the name and has a page with the name as its
heading. -/
theorem stray_round_dropped_from_bios (s : PaperworkPDFService) (w : World) (event : Event)
    (artists : List EventArtist) (auctionLots : List AuctionLot) (a : EventArtist)
    (hm : a ∈ artists) (hs : a.Status ≠ confirmedOnly)
    (h1 : a.RoundNumber ≠ 1) (h2 : a.RoundNumber ≠ 2) :
    a ∉ (groupArtists artists).round1Artists ∧
    a ∉ (groupArtists artists).round2Artists ∧
    a ∉ (groupArtists artists).unmatchedArtists ∧
    addBioSummaryPages s w event.Name artists =
      addBioSummaryPages s w event.Name (artists.filter (fun x => decide (x ≠ a))) ∧
    (∀ before after : List EventArtist, artists = before ++ a :: after →
      artistListRows artists =
        artistListRows before
          ++ [Op.setX 20,
              Op.cellFormat 40 8 (roundEaselKey a.RoundNumber a.EaselNumber) (ascii "1")
                (ascii "C"),
              Op.cellFormat 130 8 (cleanString (resolveName a)) (ascii "1") (ascii "L"),
              Op.ln 8]
          ++ artistListRows after ∧
      auctionRows event.EID event.Currency (buildLotMap auctionLots) artists =
        auctionRows event.EID event.Currency (buildLotMap auctionLots) before
          ++ ledgerRowOps (ledgerRowTexts event.EID event.Currency (buildLotMap auctionLots) a)
          ++ auctionRows event.EID event.Currency (buildLotMap auctionLots) after ∧
      detailPages s w event.Name event.EID artists =
        detailPages s w event.Name event.EID before
          ++ (addPageWithBackground s w (ascii "artist-page-bg.png")
              ++ addArtistPageContent w event.Name event.EID a)
          ++ detailPages s w event.Name event.EID after) ∧
    [Op.setX 20,
      Op.cellFormat 40 8 (roundEaselKey a.RoundNumber a.EaselNumber) (ascii "1") (ascii "C"),
      Op.cellFormat 130 8 (cleanString (resolveName a)) (ascii "1") (ascii "L"),
      Op.ln 8] <:+: composeOps s w event artists auctionLots ∧
    ledgerRowOps (ledgerRowTexts event.EID event.Currency (buildLotMap auctionLots) a)
      <:+: composeOps s w event artists auctionLots ∧
    (addPageWithBackground s w (ascii "artist-page-bg.png")
      ++ addArtistPageContent w event.Name event.EID a)
      <:+: composeOps s w event artists auctionLots ∧
    placedTexts (ledgerRowOps (ledgerRowTexts event.EID event.Currency
        (buildLotMap auctionLots) a)) =
      [eidRoundEasel event.EID a, cleanString (resolveName a),
        (ledgerValues event.Currency
          ((buildLotMap auctionLots) (roundEaselKey a.RoundNumber a.EaselNumber))).bidCount,
        (ledgerValues event.Currency
          ((buildLotMap auctionLots) (roundEaselKey a.RoundNumber a.EaselNumber))).topBid,
        cleanString (ledgerValues event.Currency
          ((buildLotMap auctionLots) (roundEaselKey a.RoundNumber a.EaselNumber))).bidderInfo,
        cleanString (ledgerValues event.Currency
          ((buildLotMap auctionLots)
            (roundEaselKey a.RoundNumber a.EaselNumber))).paymentStatus] ∧
    pageHeadings (addPageWithBackground s w (ascii "artist-page-bg.png")
      ++ addArtistPageContent w event.Name event.EID a) = [some (cleanString (resolveName a))] ∧
    roundEaselKey a.RoundNumber a.EaselNumber
      ∈ placedTexts (composeOps s w event artists auctionLots) ∧
    eidRoundEasel event.EID a ∈ placedTexts (composeOps s w event artists auctionLots) ∧
    cleanString (resolveName a) ∈ placedTexts (composeOps s w event artists auctionLots) ∧
    some (cleanString (resolveName a))
      ∈ (pageHeadings (composeOps s w event artists auctionLots)).drop
          ((pageHeadings (composeOps s w event artists auctionLots)).length
            - (detailPageArtists artists).length) := by
  -- the loops at a place of the artist
  have hsplit : ∀ before after : List EventArtist, artists = before ++ a :: after →
      artistListRows artists =
        artistListRows before ++ rosterRowOps a ++ artistListRows after ∧
      auctionRows event.EID event.Currency (buildLotMap auctionLots) artists =
        auctionRows event.EID event.Currency (buildLotMap auctionLots) before
          ++ ledgerRowOps (ledgerRowTexts event.EID event.Currency (buildLotMap auctionLots) a)
          ++ auctionRows event.EID event.Currency (buildLotMap auctionLots) after ∧
      detailPages s w event.Name event.EID artists =
        detailPages s w event.Name event.EID before
          ++ (addPageWithBackground s w (ascii "artist-page-bg.png")
              ++ addArtistPageContent w event.Name event.EID a)
          ++ detailPages s w event.Name event.EID after := by
    intro before after e
    subst e
    refine ⟨?_, ?_, ?_⟩
    · rw [artistListRows_append]
      simp [artistListRows, hs]
    · rw [auctionRows_append]
      simp [auctionRows, hs]
    · rw [detailPages_append]
      simp [detailPages, hs]
  obtain ⟨before, after, e⟩ := List.append_of_mem hm
  obtain ⟨e1, e2, e3⟩ := hsplit before after e
  have hroster : rosterRowOps a <:+: composeOps s w event artists auctionLots :=
    infix_composeOps_of_roster s w event artists auctionLots _ ⟨_, _, e1.symm⟩
  have hledger :
      ledgerRowOps (ledgerRowTexts event.EID event.Currency (buildLotMap auctionLots) a)
        <:+: composeOps s w event artists auctionLots :=
    infix_composeOps_of_ledger s w event artists auctionLots _ ⟨_, _, e2.symm⟩
  have hdetail : (addPageWithBackground s w (ascii "artist-page-bg.png")
      ++ addArtistPageContent w event.Name event.EID a)
        <:+: composeOps s w event artists auctionLots :=
    infix_composeOps_of_detail s w event artists auctionLots _ ⟨_, _, e3.symm⟩
  have hhead : pageHeadings (addPageWithBackground s w (ascii "artist-page-bg.png")
      ++ addArtistPageContent w event.Name event.EID a)
        = [some (cleanString (resolveName a))] := by
    have h := pageHeadings_page s w (ascii "artist-page-bg.png")
      (addArtistPageContent w event.Name event.EID a) [] (cleanString (resolveName a))
      (pageCount_addArtistPageContent _ _ _ _) (firstText_addArtistPageContent _ _ _ _)
    rw [List.append_nil] at h
    rw [h]
    rfl
  have hgroups : a ∉ (groupArtists artists).round1Artists ∧
      a ∉ (groupArtists artists).round2Artists ∧
      a ∉ (groupArtists artists).unmatchedArtists := by
    rw [round1Artists_eq, round2Artists_eq, unmatchedArtists_eq]
    simp [List.mem_filter, hs, h1, h2]
  have hmemDetail : a ∈ detailPageArtists artists := by
    rw [detailPageArtists_eq_roster, rosterRowArtists_eq_filter]
    simp [List.mem_filter, hm, hs]
  refine ⟨hgroups.1, hgroups.2.1, hgroups.2.2,
    addBioSummaryPages_without s w event.Name artists a hs h1 h2, hsplit, hroster, hledger,
    hdetail, placedTexts_ledgerRowOps _ _ _ _, hhead, ?_, ?_, ?_, ?_⟩
  · exact mem_placedTexts_of_infix _ _ _ hroster (by simp [rosterRowOps, placedTexts, Op.text?])
  · exact mem_placedTexts_of_infix _ _ _ hledger
      (by rw [placedTexts_ledgerRowOps]; simp [ledgerRowTexts])
  · exact mem_placedTexts_of_infix _ _ _ hroster (by simp [rosterRowOps, placedTexts, Op.text?])
  · rw [pageHeadings_composeOps, List.length_append, List.length_map, Nat.add_sub_cancel,
      List.drop_left]
    exact List.mem_map.mpr ⟨a, hmemDetail, rfl⟩

/-- C6 at the specification's event with Jane Doe and Ann, an artist of round 3: Ann is in
no bio group, and the document has her roster row `3-1`, her ledger row `AB2995-3-1` and a
page headed `Ann`. -/
theorem stray_round_dropped_from_bios_witness :
    strayArtist ∉ (groupArtists [janeDoe, strayArtist]).round1Artists ∧
    strayArtist ∉ (groupArtists [janeDoe, strayArtist]).round2Artists ∧
    strayArtist ∉ (groupArtists [janeDoe, strayArtist]).unmatchedArtists ∧
    [Op.setX 20, Op.cellFormat 40 8 (ascii "3-1") (ascii "1") (ascii "C"),
      Op.cellFormat 130 8 (ascii "Ann") (ascii "1") (ascii "L"), Op.ln 8]
      <:+: composeOps {} fullWorld scenarioEvent [janeDoe, strayArtist] [scenarioLot] ∧
    ascii "AB2995-3-1"
      ∈ placedTexts (composeOps {} fullWorld scenarioEvent [janeDoe, strayArtist]
          [scenarioLot]) ∧
    some (ascii "Ann")
      ∈ pageHeadings (composeOps {} fullWorld scenarioEvent [janeDoe, strayArtist]
          [scenarioLot]) := by
  have h := stray_round_dropped_from_bios {} fullWorld scenarioEvent [janeDoe, strayArtist]
    [scenarioLot] strayArtist (by decide) (by decide) (by decide) (by decide)
  have ek : roundEaselKey strayArtist.RoundNumber strayArtist.EaselNumber = ascii "3-1" := by
    decide
  have en : cleanString (resolveName strayArtist) = ascii "Ann" := by decide
  have ee : eidRoundEasel scenarioEvent.EID strayArtist = ascii "AB2995-3-1" := by decide
  obtain ⟨g1, g2, g3, _, _, hr, _, _, _, _, _, hl, _, hp⟩ := h
  rw [ek, en] at hr
  rw [ee] at hl
  rw [en] at hp
  exact ⟨g1, g2, g3, hr, hl, List.mem_of_mem_drop hp⟩

end Paperwork
